import Mathlib

/-!
Verification development for the mcp-of-mcps aggregator.

The TypeScript sources are shallowly embedded as pure Lean functions:
* stateful classes become explicit state passing,
* `Date.now()` becomes an explicit `now : Nat` argument,
* the SQLite table `tools` (schema `UNIQUE(serverName, toolName)`) becomes a
  `List StoredTool` with the same upsert / update / delete semantics,
* JavaScript `Map` objects become association lists with insert-at-end
  (`Map.set`) semantics, matching JS insertion-order iteration,
* a child server's protocol client is a record holding the outcome of its
  `listTools()` call and its `getInstructions()` value,
* `JSON.stringify` / `JSON.parse` on output-schema objects are modelled as the
  identity on the serialized representation (schemas are carried as their
  serialized strings; the code never inspects their structure),
* JavaScript string falsiness (`s || x` treats `""` like `undefined`) is
  modelled explicitly by `jsStrOrNull` / `jsStrOr`.
-/

namespace McpOfMcps

/-- Models the JavaScript expression `s || null` / `s || undefined` on a
string-or-undefined value: the empty string is falsy and collapses to null. -/
def jsStrOrNull (o : Option String) : Option String :=
  match o with
  | some s => if s = "" then none else some s
  | none => none

/-- Models the JavaScript expression `s || d` on a string-or-undefined value. -/
def jsStrOr (o : Option String) (d : String) : String :=
  match o with
  | some s => if s = "" then d else s
  | none => d

/-- Models a JavaScript template substitution of a string-or-undefined value:
`undefined` renders as the literal text "undefined". -/
def jsTemplate (o : Option String) : String :=
  match o with
  | some s => s
  | none => "undefined"

/-- Character-level split used to model the JavaScript `s.split(sep)` for a
single-character separator. -/
def splitCharList (sep : Char) : List Char → List (List Char)
  | [] => [[]]
  | c :: cs =>
    let r := splitCharList sep cs
    if c = sep then [] :: r
    else
      match r with
      | [] => [[c]]
      | h :: t => (c :: h) :: t

/-- Models `toolPath.split("/")` from the tools parser. -/
def jsSplitSlash (s : String) : List String :=
  (splitCharList '/' s.data).map String.mk

/-- Boolean lexicographic comparison of strings by code point, modelling the
default comparator of JavaScript `Array.prototype.sort` on strings. -/
def strLe (s t : String) : Bool := go s.data t.data
where go : List Char → List Char → Bool
  | [], _ => true
  | _ :: _, [] => false
  | a :: as, b :: bs => if a = b then go as bs else decide (a < b)

def exceptToSum : Except ε α → ε ⊕ α
  | .error e => .inl e
  | .ok a => .inr a

instance [DecidableEq ε] [DecidableEq α] : DecidableEq (Except ε α) := fun a b =>
  decidable_of_iff (exceptToSum a = exceptToSum b)
    (by cases a <;> cases b <;> simp [exceptToSum])

/-- Serialization of an output schema.  Schemas are carried in the model as
their serialized JSON text, so `JSON.stringify` is the identity map. -/
def JSONStringify (s : String) : String := s

/-- Deserialization of an output schema; inverse of `JSONStringify`. -/
def JSONParse (s : String) : String := s

/-- From `src/utils.ts`: `convertToolName` rewrites every hyphen of a raw tool
name to an underscore (a global regex replace of "-" by "_"). -/
def convertToolName (s : String) : String :=
  String.mk (s.data.map fun c => if c = '-' then '_' else c)

/-- A live tool descriptor as returned by a child server's `listTools()`.
`title` is filled in by the registry with the sanitized display name.
The output schema is carried as its serialized text (see `JSONStringify`). -/
structure Tool where
  name : String
  title : Option String := none
  description : Option String := none
  inputSchema : String := ""
  outputSchema : Option String := none
deriving DecidableEq

/-- A persisted row of the SQLite `tools` table
(`serverName, toolName, outputSchema, originalOutputSchema, lastUpdated`);
the auto-increment `id` column is never consulted by the code and is omitted. -/
structure StoredTool where
  serverName : String
  toolName : String
  outputSchema : Option String := none
  originalOutputSchema : Bool := false
  lastUpdated : Nat := 0
deriving DecidableEq

/-- The database is the list of rows of the `tools` table, in rowid order. -/
abbrev DB := List StoredTool

namespace ToolDatabase

/-- Row predicate for the SQL condition `serverName = ? AND toolName = ?`. -/
def keyMatch (sn tn : String) (r : StoredTool) : Bool :=
  r.serverName == sn && r.toolName == tn

/-- Row mapping of the read path (`getTool` / `getServerTools`): SQL NULL and
the falsy empty string both read back as undefined (`row.outputSchema ||
undefined`). -/
def rowToStored (r : StoredTool) : StoredTool :=
  { r with outputSchema := jsStrOrNull r.outputSchema }

/-- `ServersToolDatabaseImpl.saveTool`: `INSERT ... ON CONFLICT(serverName,
toolName) DO UPDATE` upsert; stores `tool.outputSchema || null`. -/
def saveTool (db : DB) (t : StoredTool) : DB :=
  if db.any (keyMatch t.serverName t.toolName) then
    db.map fun r =>
      if keyMatch t.serverName t.toolName r then
        { r with outputSchema := jsStrOrNull t.outputSchema,
                 originalOutputSchema := t.originalOutputSchema,
                 lastUpdated := t.lastUpdated }
      else r
  else db ++ [{ t with outputSchema := jsStrOrNull t.outputSchema }]

/-- `ServersToolDatabaseImpl.getTool`: `SELECT * FROM tools WHERE serverName =
? AND toolName = ?`, mapped through the read path. -/
def getTool (db : DB) (sn tn : String) : Option StoredTool :=
  (db.find? (keyMatch sn tn)).map rowToStored

/-- `ServersToolDatabaseImpl.getServerTools`: `SELECT * FROM tools WHERE
serverName = ?`, mapped through the read path. -/
def getServerTools (db : DB) (sn : String) : List StoredTool :=
  (db.filter fun r => r.serverName == sn).map rowToStored

/-- `ServersToolDatabaseImpl.updateTool`: `UPDATE tools SET outputSchema = ?,
originalOutputSchema = ?, lastUpdated = ? WHERE serverName = ? AND toolName =
?`.  `Date.now()` is passed explicitly as `now`. -/
def updateTool (db : DB) (sn tn : String) (schema : String) (orig : Bool)
    (now : Nat) : DB :=
  db.map fun r =>
    if keyMatch sn tn r then
      { r with outputSchema := some schema, originalOutputSchema := orig,
               lastUpdated := now }
    else r

/-- `ServersToolDatabaseImpl.deleteTool`: `DELETE FROM tools WHERE serverName
= ? AND toolName = ?`. -/
def deleteTool (db : DB) (sn tn : String) : DB :=
  db.filter fun r => !keyMatch sn tn r

/-- `ServersToolDatabaseImpl.deleteServerTools`: `DELETE FROM tools WHERE
serverName = ?`. -/
def deleteServerTools (db : DB) (sn : String) : DB :=
  db.filter fun r => !(r.serverName == sn)

/-- `ServersToolDatabaseImpl.getAllServerNames`: `SELECT DISTINCT serverName
FROM tools`. -/
def getAllServerNames (db : DB) : List String :=
  (db.map (·.serverName)).dedup

/-- The table constraint `UNIQUE(serverName, toolName)`: no two rows share a
(serverName, toolName) pair. -/
def UniqueKeys (db : DB) : Prop :=
  (db.map fun r => (r.serverName, r.toolName)).Nodup

instance (db : DB) : Decidable (UniqueKeys db) := by
  unfold UniqueKeys; infer_instance

end ToolDatabase

/-- A child server's protocol client, reduced to the two capabilities the
embedded code consults: the outcome of `listTools()` and the value of
`getInstructions()`. -/
structure Client where
  instructions : Option String := none
  listToolsResult : Except String (List Tool) := .ok []
deriving DecidableEq

/-- `ServerInfo` from `domain/types.ts`: registry entry of one server. -/
structure ServerInfo where
  name : String
  client : Client
  tools : List Tool
deriving DecidableEq

/-- The connection manager's map of server name to connected client
(`getAllConnections()`), in insertion order. -/
abbrev Connections := List (String × Client)

/-- The registry's in-memory `serversInfo : Map<string, ServerInfo>`,
in insertion order. -/
abbrev ServersInfo := List (String × ServerInfo)

namespace ServerRegistryService
open ToolDatabase

/-- `ServerRegistryService.fetchServerTools`: lists the server's tools and
sets `tool.title = convertToolName(tool.name)` on each. -/
def fetchServerTools (c : Client) : Except String (List Tool) :=
  c.listToolsResult.map fun ts =>
    ts.map fun t => { t with title := some (convertToolName t.name) }

/-- One iteration of the per-tool loop of
`ServerRegistryService.syncToolsToDatabase`: compares the advertised tool with
its database record, inserting / overwriting / healing as the code does.  The
accumulator carries the database and the (possibly healed) in-memory tools
processed so far. -/
def syncToolStep (sn : String) (now : Nat) (acc : DB × List Tool) (t : Tool) :
    DB × List Tool :=
  match getTool acc.1 sn t.name with
  | none =>
    (saveTool acc.1
      { serverName := sn, toolName := t.name,
        outputSchema := t.outputSchema.map JSONStringify,
        originalOutputSchema := t.outputSchema.isSome,
        lastUpdated := now },
     acc.2 ++ [t])
  | some dbTool =>
    match t.outputSchema with
    | some sch =>
      (updateTool acc.1 sn t.name (JSONStringify sch) true now, acc.2 ++ [t])
    | none =>
      (acc.1, acc.2 ++ [{ t with outputSchema := dbTool.outputSchema.map JSONParse }])

/-- The orphan-tool deletion loop of `syncToolsToDatabase`: every record of
this server whose tool name is no longer advertised is deleted. -/
def orphanToolPhase (db : DB) (sn : String) (names : List String) : DB :=
  (getServerTools db sn).foldl
    (fun d r => if names.contains r.toolName then d else deleteTool d sn r.toolName)
    db

/-- `ServerRegistryService.syncToolsToDatabase`: orphan-tool deletion followed
by the per-tool upsert / overwrite / heal loop.  Returns the new database and
the (healed) in-memory tool list. -/
def syncToolsToDatabase (db : DB) (sn : String) (tools : List Tool) (now : Nat) :
    DB × List Tool :=
  let names := tools.map (·.name)
  tools.foldl (syncToolStep sn now) (orphanToolPhase db sn names, [])

/-- `ServerRegistryService.registerServer`: fails if the server is already
registered or has no connection; otherwise fetches tools, syncs them to the
database, and appends the resulting `ServerInfo` to the registry map. -/
def registerServer (conns : Connections) (st : ServersInfo) (db : DB)
    (name : String) (now : Nat) : Except String (ServersInfo × DB) :=
  if (st.lookup name).isSome then
    .error ("Server \x27" ++ name ++ "\x27 is already registered")
  else
    match conns.lookup name with
    | none => .error ("Connection for server \x27" ++ name ++ "\x27 not found")
    | some client =>
      match fetchServerTools client with
      | .error e =>
        .error ("Failed to register server \x27" ++ name ++ "\x27: " ++ e)
      | .ok tools =>
        let r := syncToolsToDatabase db name tools now
        .ok (st ++ [(name, { name := name, client := client, tools := r.2 })], r.1)

/-- The registration step of `registerAllServers`, whose `.catch` swallows a
registration failure and leaves the state untouched. -/
def registerServerCaught (conns : Connections) (st : ServersInfo) (db : DB)
    (name : String) (now : Nat) : ServersInfo × DB :=
  match registerServer conns st db name now with
  | .ok r => r
  | .error _ => (st, db)

/-- `ServerRegistryService.cleanupOrphanedServers`: every server name present
in the database but absent from the registry map has all its records deleted. -/
def cleanupOrphanedServers (st : ServersInfo) (db : DB) : DB :=
  (getAllServerNames db).foldl
    (fun d n => if (st.lookup n).isSome then d else deleteServerTools d n)
    db

/-- `ServerRegistryService.registerAllServers`: best-effort registration of
every connected server (failures swallowed), then orphan-server cleanup.
Per-server syncs touch disjoint database rows, so their concurrent
interleaving is modelled as sequential iteration in connection order. -/
def registerAllServers (conns : Connections) (st : ServersInfo) (db : DB)
    (now : Nat) : ServersInfo × DB :=
  let p := conns.foldl
    (fun acc c => registerServerCaught conns acc.1 acc.2 c.1 now) (st, db)
  (p.1, cleanupOrphanedServers p.1 p.2)

/-- `ServerRegistryService.getServer`: pure lookup. -/
def getServer (st : ServersInfo) (name : String) : Option ServerInfo :=
  st.lookup name

/-- `ServerRegistryService.getTool`: throws when the server is not in the
registry, otherwise `serverInfo.tools.find(t => t.name === toolName)`. -/
def getTool (st : ServersInfo) (sn tn : String) : Except String (Option Tool) :=
  match st.lookup sn with
  | none => .error ("Server \x27" ++ sn ++ "\x27 not found in registry")
  | some info => .ok (info.tools.find? fun t => t.name == tn)

/-- One fold step of `registerAllServers`. -/
def regStep (conns : Connections) (now : Nat) (acc : ServersInfo × DB)
    (c : String × Client) : ServersInfo × DB :=
  registerServerCaught conns acc.1 acc.2 c.1 now

/-- Timestamp-erasing projection of a database row; two databases are equal
"up to timestamp refresh" when their `stripTime` images agree. -/
def stripTime (r : StoredTool) : StoredTool := { r with lastUpdated := 0 }

/-- The state the per-server sync establishes for a server's rows: every row
of this server carries an advertised tool name; every advertised tool has a
row; and a tool advertised with an output schema has all its rows holding the
serialized schema marked original. -/
def ServerSynced (sn : String) (tools : List Tool) (db : DB) : Prop :=
  (∀ r ∈ db, r.serverName = sn → r.toolName ∈ tools.map (·.name)) ∧
  (∀ t ∈ tools, ∃ r ∈ db, r.serverName = sn ∧ r.toolName = t.name) ∧
  (∀ t ∈ tools, ∀ s, t.outputSchema = some s →
    ∀ r ∈ db, r.serverName = sn → r.toolName = t.name →
      r.outputSchema = some (JSONStringify s) ∧ r.originalOutputSchema = true)

/-- Registry invariant carried through `registerAllServers`: every registered
entry names the client of its connection, registered with a successful tool
listing whose converted tools the database is synced for. -/
def RegINV (conns : Connections) (st : ServersInfo) (db : DB) : Prop :=
  ∀ q ∈ st, conns.lookup q.1 = some (q.2 : ServerInfo).client ∧
    ∃ ts, (q.2 : ServerInfo).client.listToolsResult = .ok ts ∧
      ServerSynced q.1
        (ts.map fun t => { t with title := some (convertToolName t.name) }) db

end ServerRegistryService

namespace ToolsParserService

/-- The constant `SERVERS_OVERVIEW_ADDITIONAL_ANS` appended to the servers
overview. -/
def SERVERS_OVERVIEW_NOTE : String :=
  "\nNote: If you want to use any tools from the list first find out how to use in using the \"get_tools_overview\" tool.\n"

/-- The constant `TOOLS_OVERVIEW_ADDITIONAL_ANS` appended to the tools
overview. -/
def TOOLS_OVERVIEW_NOTE : String :=
  "\nNote:\n - If you want to excute tool use the \"run_functions_code\"\n - Try to create code that use all the tools that need, specily if for example tool_a input go to tool_b.\n"

/-- The lines contributed by one server in
`ToolsParserService.getServersOverview`: an instruction line when the client
supplies (truthy) instructions, then one `serverName/title` path line per
tool. -/
def serverLines (p : String × ServerInfo) : List String :=
  (match p.2.client.instructions with
   | some i => if i = "" then [] else ["# " ++ p.1 ++ " mcp server instructions: " ++ i]
   | none => []) ++
  p.2.tools.map fun t => p.1 ++ "/" ++ jsTemplate t.title

/-- The sorted line list built by `getServersOverview` (`lines.sort()`, the
default lexicographic string sort). -/
def getServersOverviewLines (servers : ServersInfo) : List String :=
  List.insertionSort (fun a b => strLe a b = true) (servers.flatMap serverLines)

/-- `ToolsParserService.getServersOverview`: the sorted lines joined by
newlines, followed by the fixed note. -/
def getServersOverview (servers : ServersInfo) : String :=
  String.intercalate "\n" (getServersOverviewLines servers) ++ "\n\n" ++
    SERVERS_OVERVIEW_NOTE

/-- One element of the JSON array built by
`ToolsParserService.getToolsOverview`: the spread tool descriptor plus the
`exampleUsage` snippet, with `name` overwritten by `tool.title`. -/
structure ToolRecord where
  name : Option String
  title : Option String
  description : Option String
  inputSchema : String
  outputSchema : Option String
  exampleUsage : String
deriving DecidableEq

/-- The `exampleUsage` template string of `getToolsOverview`. -/
def exampleUsageFor (sn : String) (t : Tool) : String :=
  "const " ++ jsTemplate t.title ++ " = require(\x27./" ++ sn ++ "/"
    ++ jsTemplate t.title ++ ".cjs\x27);\nmodule.exports = "
    ++ jsTemplate t.title ++ "(\x7b /* your parameters here */ \x7d);"

def mkToolRecord (sn : String) (t : Tool) : ToolRecord :=
  { name := t.title, title := t.title, description := t.description,
    inputSchema := t.inputSchema, outputSchema := t.outputSchema,
    exampleUsage := exampleUsageFor sn t }

/-- The record array built by `ToolsParserService.getToolsOverview` over the
given tool paths.  A malformed path or an unknown server name throws (the
whole call fails); an unknown tool on a known server only logs a warning and
is skipped.  The JSON serialization of the records and the appended
`TOOLS_OVERVIEW_NOTE` are not modelled; the claims concern the array contents
and the failure behaviour. -/
def getToolsOverviewRecords (servers : ServersInfo) :
    List String → Except String (List ToolRecord)
  | [] => .ok []
  | p :: rest =>
    match jsSplitSlash p with
    | [serverName, toolName] =>
      match servers.lookup serverName with
      | none => .error ("Error: Server \x27" ++ serverName ++ "\x27 not found")
      | some info =>
        match info.tools.find? (fun t => t.title == some toolName) with
        | some tool =>
          (getToolsOverviewRecords servers rest).map
            (fun rs => mkToolRecord serverName tool :: rs)
        | none => getToolsOverviewRecords servers rest
    | _ =>
      .error ("Error: Invalid tool path format \x27" ++ p
        ++ "\x27. Expected \x27serverName/toolName\x27")

/-- Whether a tool path resolves to a registered tool (well-formed, known
server, known display name). -/
def pathResolves (servers : ServersInfo) (p : String) : Bool :=
  match jsSplitSlash p with
  | [serverName, toolName] =>
    match servers.lookup serverName with
    | none => false
    | some info => (info.tools.find? (fun t => t.title == some toolName)).isSome
  | _ => false

end ToolsParserService

/-- `ToolWithMetadata` from `domain/types.ts`: the in-memory descriptor kept
by the vector store for each indexed tool. -/
structure ToolWithMetadata where
  serverName : String
  toolName : String
  description : String
  tool : Tool
deriving DecidableEq

/-- One item of the vectra `LocalIndex`, generic over the embedding-vector
type `E`. -/
structure IndexItem (E : Type) where
  id : String
  vector : E
  metadataServerName : String
  metadataToolName : String
  metadataDescription : String
deriving DecidableEq

/-- The state of `VectorStoreImpl`: the vectra index items, the in-memory
id-to-descriptor map (JS `Map`, insertion order), and the initialization
flag. -/
structure VSState (E : Type) where
  ready : Bool := false
  toolsMap : List (String × ToolWithMetadata) := []
  index : List (IndexItem E) := []
deriving DecidableEq

namespace VectorStoreImpl

/-- JS `Map.set`: replace the value of an existing key in place, or append a
new key at the end. -/
def mapSet (m : List (String × α)) (k : String) (v : α) : List (String × α) :=
  if m.any (·.1 == k) then
    m.map fun p => if p.1 == k then (k, v) else p
  else m ++ [(k, v)]

/-- Vectra `upsertItem`: replace the item with the same id, or append. -/
def upsertItem (idx : List (IndexItem E)) (it : IndexItem E) : List (IndexItem E) :=
  if idx.any (·.id == it.id) then
    idx.map fun x => if x.id == it.id then it else x
  else idx ++ [it]

/-- The text embedded for a tool: `tool.description || tool.name`. -/
def embedText (t : Tool) : String := jsStrOr t.description t.name

/-- The body of the indexing loop for one tool of one server. -/
def indexOneTool (embed : String → E) (sn : String) (st : VSState E) (t : Tool) :
    VSState E :=
  let desc := embedText t
  let id := sn ++ "/" ++ t.name
  { st with
    toolsMap := mapSet st.toolsMap id
      { serverName := sn, toolName := t.name, description := desc, tool := t },
    index := upsertItem st.index
      { id := id, vector := embed desc, metadataServerName := sn,
        metadataToolName := t.name, metadataDescription := desc } }

/-- `VectorStoreImpl.indexTools`: fails if the store is not initialized,
otherwise upserts an entry for every tool of every server in the given map.
The embedding function is passed explicitly (`EmbeddingsManager.embed`). -/
def indexTools (embed : String → E) (st : VSState E) (servers : ServersInfo) :
    Except String (VSState E) :=
  if !st.ready then
    .error "VectorStore not initialized. Call initialize() first."
  else
    .ok (servers.foldl
      (fun s p => p.2.tools.foldl (indexOneTool embed p.1) s) st)

end VectorStoreImpl

/-- One `{ type: "text", text }` element of a facade tool response. -/
structure TextContent where
  kind : String
  text : String
deriving DecidableEq

/-- The response payload returned by the facade's call-tool request handler. -/
structure ToolResponse where
  content : List TextContent
deriving DecidableEq

namespace Facade

/-- The kinds of failure that can surface from composition code running in the
sandbox: a synchronously thrown error, a rejected asynchronous result, or a
failing tool-binding call (a child server's tool-call error). -/
inductive SandboxFailure where
  | thrown (msg : String)
  | rejected (msg : String)
  | bindingCall (msg : String)
deriving DecidableEq

/-- The error message carried by a sandbox failure
(`error instanceof Error ? error.message : String(error)`). -/
def failureMessage : SandboxFailure → String
  | .thrown m => m
  | .rejected m => m
  | .bindingCall m => m

/-- `SandboxManagerImpl.execute`: the outcome of running the composition code
(`vm.run` plus awaiting a returned promise) is passed through; a failure is
logged and re-thrown to the caller.  Arbitrary code execution itself is not
embeddable, so the outcome is the function's input. -/
def sandboxExecute (outcome : Except SandboxFailure α) : Except SandboxFailure α :=
  match outcome with
  | .ok v => .ok v
  | .error e => .error e

/-- The `run_functions_code` branch of the facade's call-tool handler
(`McpOfMcps.setupHandlers`): validates the `code` argument, runs the sandbox,
and always returns a `ToolResponse` — a sandbox failure is caught and rendered
as an error text payload.  `stringify` abstracts `JSON.stringify(result,
null, 2)`. -/
def runFunctionsCode (stringify : α → String) (code : Option String)
    (outcome : Except SandboxFailure α) : ToolResponse :=
  match code with
  | none => { content := [{ kind := "text", text := "Error: code must be a string" }] }
  | some _ =>
    match sandboxExecute outcome with
    | .ok v => { content := [{ kind := "text", text := stringify v }] }
    | .error e =>
      { content := [{ kind := "text", text := "Error executing code: " ++ failureMessage e }] }

end Facade

/-! ### Shared helper lemmas -/

section Helpers

theorem list_map_eq_self {α : Type _} {l : List α} {f : α → α}
    (h : l.map f = l) : ∀ x ∈ l, f x = x := by
  induction l with
  | nil => simp
  | cons a l ih =>
    simp only [List.map_cons, List.cons.injEq] at h
    intro x hx
    rcases List.mem_cons.mp hx with rfl | hx
    · exact h.1
    · exact ih h.2 x hx

theorem convertToolName_data (s : String) :
    (convertToolName s).data = s.data.map (fun c => if c = '-' then '_' else c) :=
  rfl

namespace ToolDatabase

theorem keyMatch_iff (sn tn : String) (r : StoredTool) :
    keyMatch sn tn r = true ↔ r.serverName = sn ∧ r.toolName = tn := by
  simp [keyMatch]

/-- The row transformer of `updateTool` never changes a row's key fields, so
`find?` for any key commutes with the update. -/
theorem find?_updateTool (db : DB) (sn tn : String) (S : String) (b : Bool)
    (now : Nat) (sn' tn' : String) :
    (updateTool db sn tn S b now).find? (keyMatch sn' tn') =
      (db.find? (keyMatch sn' tn')).map
        (fun r => if keyMatch sn tn r then
          { r with outputSchema := some S, originalOutputSchema := b,
                   lastUpdated := now } else r) := by
  unfold updateTool
  rw [List.find?_map]
  have hp : (keyMatch sn' tn' ∘ fun r =>
      if keyMatch sn tn r then
        { r with outputSchema := some S, originalOutputSchema := b,
                 lastUpdated := now } else r) = keyMatch sn' tn' := by
    funext r
    simp only [Function.comp_apply]
    by_cases h : keyMatch sn tn r = true
    · rw [if_pos h]; rfl
    · rw [if_neg h]
  rw [hp]

theorem find?_eq_none_of_not_any {p : StoredTool → Bool} {db : DB}
    (h : db.any p = false) : db.find? p = none := by
  apply List.find?_eq_none.mpr
  intro r hr hpr
  exact absurd (List.any_eq_true.mpr ⟨r, hr, hpr⟩) (by simp [h])

theorem jsStrOrNull_idem (o : Option String) :
    jsStrOrNull (jsStrOrNull o) = jsStrOrNull o := by
  cases o with
  | none => rfl
  | some s =>
    by_cases h : s = "" <;> simp [jsStrOrNull, h]

/-- Reading a key straight after `saveTool` inserted it (no conflicting row
existed) returns the saved record, normalized through the read path. -/
theorem getTool_saveTool_new {db : DB} {row : StoredTool}
    (h : db.find? (keyMatch row.serverName row.toolName) = none) :
    getTool (saveTool db row) row.serverName row.toolName =
      some { row with outputSchema := jsStrOrNull row.outputSchema } := by
  have hany : db.any (keyMatch row.serverName row.toolName) = false := by
    rw [List.any_eq_false]
    intro r hr
    exact List.find?_eq_none.mp h r hr
  unfold saveTool
  rw [if_neg (by simp [hany])]
  unfold getTool
  rw [List.find?_append, h, Option.none_or]
  have hk : keyMatch row.serverName row.toolName
      { row with outputSchema := jsStrOrNull row.outputSchema } = true := by
    simp [keyMatch]
  simp only [List.find?_cons, hk, List.find?_nil]
  simp [rowToStored, jsStrOrNull_idem]

/-- Reading a key straight after `updateTool` refreshed it returns the updated
record, normalized through the read path. -/
theorem getTool_updateTool_self {db : DB} {sn tn : String} {r0 : StoredTool}
    (h : db.find? (keyMatch sn tn) = some r0) (S : String) (b : Bool) (now : Nat) :
    getTool (updateTool db sn tn S b now) sn tn =
      some { serverName := sn, toolName := tn,
             outputSchema := jsStrOrNull (some S), originalOutputSchema := b,
             lastUpdated := now } := by
  have hk : keyMatch sn tn r0 = true := List.find?_some h
  obtain ⟨hsn, htn⟩ := (keyMatch_iff sn tn r0).mp hk
  unfold getTool
  rw [find?_updateTool, h]
  simp only [Option.map_some']
  rw [if_pos hk]
  simp [rowToStored, hsn, htn]

/-- A map whose row transformer preserves key fields and fixes every row
matching the searched key commutes with `find?` for that key. -/
theorem find?_map_keyfix (f : StoredTool → StoredTool) (sn tn : String)
    (hkeys : ∀ r, (f r).serverName = r.serverName ∧ (f r).toolName = r.toolName)
    (hfix : ∀ r, keyMatch sn tn r = true → f r = r) (db : DB) :
    (db.map f).find? (keyMatch sn tn) = db.find? (keyMatch sn tn) := by
  rw [List.find?_map]
  have hp : keyMatch sn tn ∘ f = keyMatch sn tn := by
    funext r
    simp [keyMatch, (hkeys r).1, (hkeys r).2, Function.comp]
  rw [hp]
  cases hf : db.find? (keyMatch sn tn) with
  | none => rfl
  | some r0 => simp [hfix r0 (List.find?_some hf)]

theorem getTool_isSome_iff (db : DB) (sn tn : String) :
    (getTool db sn tn).isSome = true ↔ ∃ r ∈ db, keyMatch sn tn r = true := by
  unfold getTool
  rw [Option.isSome_map']
  exact List.find?_isSome

theorem getTool_eq_none_iff (db : DB) (sn tn : String) :
    getTool db sn tn = none ↔ ∀ r ∈ db, ¬keyMatch sn tn r = true := by
  unfold getTool
  rw [Option.map_eq_none']
  exact List.find?_eq_none

/-- `saveTool` leaves the lookup of any other key unchanged. -/
theorem getTool_saveTool_ne (db : DB) (row : StoredTool) (sn' tn' : String)
    (h : ¬(row.serverName = sn' ∧ row.toolName = tn')) :
    getTool (saveTool db row) sn' tn' = getTool db sn' tn' := by
  unfold saveTool
  by_cases hany : db.any (keyMatch row.serverName row.toolName) = true
  · rw [if_pos hany]
    unfold getTool
    have hcomm := find?_map_keyfix
      (fun r => if keyMatch row.serverName row.toolName r = true then
        { r with outputSchema := jsStrOrNull row.outputSchema,
                 originalOutputSchema := row.originalOutputSchema,
                 lastUpdated := row.lastUpdated }
      else r) sn' tn'
      (fun r => by
        by_cases hk : keyMatch row.serverName row.toolName r = true
        · simp [hk]
        · simp [hk])
      (fun r hk => by
        obtain ⟨h1, h2⟩ := (keyMatch_iff sn' tn' r).mp hk
        have hc0 : keyMatch row.serverName row.toolName r = false := by
          rw [Bool.eq_false_iff]
          intro hc
          obtain ⟨h3, h4⟩ := (keyMatch_iff _ _ r).mp hc
          exact h ⟨h3.symm.trans h1, h4.symm.trans h2⟩
        simp [hc0]) db
    rw [hcomm]
  · rw [if_neg hany]
    unfold getTool
    rw [List.find?_append]
    have hnone : ([{ row with outputSchema := jsStrOrNull row.outputSchema }] :
        DB).find? (keyMatch sn' tn') = none := by
      rw [List.find?_cons]
      have : keyMatch sn' tn'
          { row with outputSchema := jsStrOrNull row.outputSchema } = false := by
        rw [show (keyMatch sn' tn' { row with outputSchema := jsStrOrNull row.outputSchema })
            = (row.serverName == sn' && row.toolName == tn') from rfl]
        rw [Bool.and_eq_false_iff]
        by_cases hsn : row.serverName = sn'
        · right
          simp only [beq_eq_false_iff_ne]
          exact fun hc => h ⟨hsn, hc⟩
        · left
          simp only [beq_eq_false_iff_ne]
          exact hsn
      rw [this, List.find?_nil]
    rw [hnone]
    cases db.find? (keyMatch sn' tn') <;> rfl

/-- `updateTool` leaves the lookup of any other key unchanged. -/
theorem getTool_updateTool_ne (db : DB) (sn tn S : String) (b : Bool) (now : Nat)
    (sn' tn' : String) (h : ¬(sn = sn' ∧ tn = tn')) :
    getTool (updateTool db sn tn S b now) sn' tn' = getTool db sn' tn' := by
  unfold getTool
  rw [find?_updateTool]
  cases hf : db.find? (keyMatch sn' tn') with
  | none => rfl
  | some r0 =>
    obtain ⟨h1, h2⟩ := (keyMatch_iff sn' tn' r0).mp (List.find?_some hf)
    have hk0 : keyMatch sn tn r0 = false := by
      rw [Bool.eq_false_iff]
      intro hc
      obtain ⟨h3, h4⟩ := (keyMatch_iff _ _ r0).mp hc
      exact h ⟨h3.symm.trans h1, h4.symm.trans h2⟩
    simp [hk0]

/-- `saveTool` never removes a key. -/
theorem getTool_saveTool_isSome (db : DB) (row : StoredTool) (sn' tn' : String)
    (h : (getTool db sn' tn').isSome = true) :
    (getTool (saveTool db row) sn' tn').isSome = true := by
  obtain ⟨r, hr, hk⟩ := (getTool_isSome_iff db sn' tn').mp h
  apply (getTool_isSome_iff _ sn' tn').mpr
  unfold saveTool
  by_cases hany : db.any (keyMatch row.serverName row.toolName) = true
  · rw [if_pos hany]
    refine ⟨_, List.mem_map.mpr ⟨r, hr, rfl⟩, ?_⟩
    by_cases hk2 : keyMatch row.serverName row.toolName r = true
    · rw [if_pos hk2]
      obtain ⟨h1, h2⟩ := (keyMatch_iff _ _ r).mp hk
      simpa [keyMatch] using ⟨h1, h2⟩
    · rw [if_neg hk2]
      exact hk
  · rw [if_neg hany]
    exact ⟨r, List.mem_append_left _ hr, hk⟩

/-- `updateTool` never removes a key. -/
theorem getTool_updateTool_isSome (db : DB) (sn tn S : String) (b : Bool)
    (now : Nat) (sn' tn' : String) (h : (getTool db sn' tn').isSome = true) :
    (getTool (updateTool db sn tn S b now) sn' tn').isSome = true := by
  obtain ⟨r, hr, hk⟩ := (getTool_isSome_iff db sn' tn').mp h
  apply (getTool_isSome_iff _ sn' tn').mpr
  unfold updateTool
  refine ⟨_, List.mem_map.mpr ⟨r, hr, rfl⟩, ?_⟩
  by_cases hk2 : keyMatch sn tn r = true
  · rw [if_pos hk2]
    obtain ⟨h1, h2⟩ := (keyMatch_iff _ _ r).mp hk
    simpa [keyMatch] using ⟨h1, h2⟩
  · rw [if_neg hk2]
    exact hk

/-- Deleting one key preserves the presence of any other key of the same
server. -/
theorem getTool_deleteTool_isSome (db : DB) (sn tn : String) (tn' : String)
    (hne : tn' ≠ tn) (h : (getTool db sn tn').isSome = true) :
    (getTool (deleteTool db sn tn) sn tn').isSome = true := by
  obtain ⟨r, hr, hk⟩ := (getTool_isSome_iff db sn tn').mp h
  apply (getTool_isSome_iff _ sn tn').mpr
  refine ⟨r, ?_, hk⟩
  apply List.mem_filter.mpr
  refine ⟨hr, ?_⟩
  obtain ⟨h1, h2⟩ := (keyMatch_iff _ _ r).mp hk
  simp [keyMatch, h2, hne]

end ToolDatabase

namespace ServerRegistryService
open ToolDatabase

/-- Each iteration of the per-tool sync loop appends exactly one tool to the
in-memory accumulator, preserving its raw name and display title. -/
theorem syncToolStep_snd_shape (sn : String) (now : Nat) (db : DB)
    (acc : List Tool) (t : Tool) :
    ∃ t', (syncToolStep sn now (db, acc) t).2 = acc ++ [t'] ∧
      t'.name = t.name ∧ t'.title = t.title := by
  unfold syncToolStep
  cases h : ToolDatabase.getTool db sn t.name with
  | none => exact ⟨t, rfl, rfl, rfl⟩
  | some r =>
    cases hs : t.outputSchema with
    | some s => exact ⟨t, rfl, rfl, rfl⟩
    | none => exact ⟨{ t with outputSchema := r.outputSchema.map JSONParse }, rfl, rfl, rfl⟩

/-- The whole per-tool loop returns the input tools in order, with names and
titles unchanged (only output schemas may be healed). -/
theorem syncTools_fold_snd_shape (sn : String) (now : Nat) :
    ∀ (tools : List Tool) (db : DB) (acc : List Tool),
      ∃ tl, (tools.foldl (syncToolStep sn now) (db, acc)).2 = acc ++ tl ∧
        tl.map (fun t => (t.name, t.title)) =
          tools.map (fun t => (t.name, t.title)) := by
  intro tools
  induction tools with
  | nil => intro db acc; exact ⟨[], by simp, by simp⟩
  | cons t ts ih =>
    intro db acc
    obtain ⟨t', ht', hname, htitle⟩ := syncToolStep_snd_shape sn now db acc t
    obtain ⟨tl, htl, hmap⟩ :=
      ih (syncToolStep sn now (db, acc) t).1 (syncToolStep sn now (db, acc) t).2
    rw [Prod.mk.eta] at htl
    refine ⟨t' :: tl, ?_, ?_⟩
    · rw [List.foldl_cons, htl, ht']
      simp
    · simp [hmap, hname, htitle]

theorem syncToolsToDatabase_snd_shape (db : DB) (sn : String)
    (tools : List Tool) (now : Nat) :
    (syncToolsToDatabase db sn tools now).2.map (fun t => (t.name, t.title)) =
      tools.map (fun t => (t.name, t.title)) := by
  unfold syncToolsToDatabase
  obtain ⟨tl, htl, hmap⟩ := syncTools_fold_snd_shape sn now tools
    (orphanToolPhase db sn (tools.map (·.name))) []
  simp only [htl, List.nil_append]
  exact hmap

theorem syncToolsToDatabase_eq (db : DB) (sn : String) (tools : List Tool)
    (now : Nat) :
    syncToolsToDatabase db sn tools now =
      tools.foldl (syncToolStep sn now)
        (orphanToolPhase db sn (tools.map (·.name)), []) := rfl

theorem registerAllServers_eq (conns : Connections) (st : ServersInfo)
    (db : DB) (now : Nat) :
    registerAllServers conns st db now =
      ((conns.foldl (fun acc c => registerServerCaught conns acc.1 acc.2 c.1 now)
          (st, db)).1,
       cleanupOrphanedServers
         (conns.foldl (fun acc c => registerServerCaught conns acc.1 acc.2 c.1 now)
           (st, db)).1
         (conns.foldl (fun acc c => registerServerCaught conns acc.1 acc.2 c.1 now)
           (st, db)).2) := rfl

/-- Every row surviving the orphan-server cleanup fold was in the input
database. -/
theorem cleanupFold_subset (st : ServersInfo) :
    ∀ (ns : List String) (d : DB) (r : StoredTool),
    r ∈ ns.foldl
      (fun d n => if (st.lookup n).isSome then d else ToolDatabase.deleteServerTools d n) d →
    r ∈ d := by
  intro ns
  induction ns with
  | nil => intro d r h; exact h
  | cons n ns ih =>
    intro d r h
    rw [List.foldl_cons] at h
    have := ih _ r h
    by_cases hreg : (st.lookup n).isSome = true
    · rwa [if_pos hreg] at this
    · rw [if_neg hreg] at this
      exact (List.mem_filter.mp this).1

/-- After the cleanup fold over a name list, a surviving row whose server name
occurs in that list belongs to a registered server. -/
theorem cleanupFold_registered (st : ServersInfo) :
    ∀ (ns : List String) (d : DB) (r : StoredTool),
    r ∈ ns.foldl
      (fun d n => if (st.lookup n).isSome then d else ToolDatabase.deleteServerTools d n) d →
    r.serverName ∈ ns → (st.lookup r.serverName).isSome = true := by
  intro ns
  induction ns with
  | nil => intro d r _ hmem; simp at hmem
  | cons n ns ih =>
    intro d r h hmem
    rw [List.foldl_cons] at h
    rcases List.mem_cons.mp hmem with heq | hmem'
    · by_cases hreg : (st.lookup n).isSome = true
      · rw [← heq] at hreg; exact hreg
      · rw [if_neg hreg] at h
        have hr := cleanupFold_subset st ns _ r h
        have := (List.mem_filter.mp hr).2
        rw [heq] at this
        simp at this
    · exact ih _ r h hmem'

/-- Every row of the database after orphan-server cleanup belongs to a
registered server. -/
theorem cleanup_registered (st : ServersInfo) (db : DB) (r : StoredTool)
    (h : r ∈ cleanupOrphanedServers st db) :
    (st.lookup r.serverName).isSome = true := by
  unfold cleanupOrphanedServers at h
  have hsub := cleanupFold_subset st (ToolDatabase.getAllServerNames db) db r h
  apply cleanupFold_registered st (ToolDatabase.getAllServerNames db) db r h
  unfold ToolDatabase.getAllServerNames
  rw [List.mem_dedup]
  exact List.mem_map.mpr ⟨r, hsub, rfl⟩

/-- Rows of other servers pass through the orphan-tool deletion fold
untouched. -/
theorem orphanFold_mem_other (sn : String) (names : List String) :
    ∀ (l : List StoredTool) (d : DB) (r : StoredTool), r ∈ d →
    r.serverName ≠ sn →
    r ∈ l.foldl
      (fun d r0 => if names.contains r0.toolName then d
                   else ToolDatabase.deleteTool d sn r0.toolName) d := by
  intro l
  induction l with
  | nil => intro d r h _; exact h
  | cons r0 l ih =>
    intro d r h hne
    rw [List.foldl_cons]
    apply ih
    · by_cases hc : names.contains r0.toolName = true
      · rwa [if_pos hc]
      · rw [if_neg hc]
        apply List.mem_filter.mpr
        refine ⟨h, ?_⟩
        simp [ToolDatabase.keyMatch, hne]
    · exact hne

/-- Presence of an advertised tool's record is preserved by the orphan-tool
deletion fold. -/
theorem orphanFold_isSome (sn : String) (names : List String) (n : String)
    (hn : names.contains n = true) :
    ∀ (l : List StoredTool) (d : DB),
    (ToolDatabase.getTool d sn n).isSome = true →
    (ToolDatabase.getTool
      (l.foldl (fun d r0 => if names.contains r0.toolName then d
                 else ToolDatabase.deleteTool d sn r0.toolName) d) sn n).isSome = true := by
  intro l
  induction l with
  | nil => intro d h; exact h
  | cons r0 l ih =>
    intro d h
    rw [List.foldl_cons]
    apply ih
    by_cases hc : names.contains r0.toolName = true
    · rwa [if_pos hc]
    · rw [if_neg hc]
      apply ToolDatabase.getTool_deleteTool_isSome
      · intro hcon
        rw [hcon] at hn
        exact absurd hn hc
      · exact h

/-- After the orphan-tool deletion fold, every surviving row of this server
whose tool name has a deletion witness in the iterated list is advertised. -/
theorem orphanFold_advertised (sn : String) (names : List String) :
    ∀ (l : List StoredTool) (d : DB),
    (∀ r ∈ d, r.serverName = sn → names.contains r.toolName = false →
      ∃ r' ∈ l, r'.toolName = r.toolName) →
    ∀ r ∈ l.foldl
      (fun d r0 => if names.contains r0.toolName then d
                   else ToolDatabase.deleteTool d sn r0.toolName) d,
      r.serverName = sn → names.contains r.toolName = true := by
  intro l
  induction l with
  | nil =>
    intro d hwit r hr hsn
    by_cases hc : names.contains r.toolName = true
    · exact hc
    · obtain ⟨r', hr', _⟩ := hwit r hr hsn (Bool.eq_false_iff.mpr hc)
      simp at hr'
  | cons r0 l ih =>
    intro d hwit r hr hsn
    rw [List.foldl_cons] at hr
    by_cases hc0 : names.contains r0.toolName = true
    · rw [if_pos hc0] at hr
      refine ih d ?_ r hr hsn
      intro q hq hqsn hqc
      obtain ⟨r', hr', hr'eq⟩ := hwit q hq hqsn hqc
      rcases List.mem_cons.mp hr' with rfl | hr'
      · rw [hr'eq] at hc0
        rw [hqc] at hc0
        exact Bool.noConfusion hc0
      · exact ⟨r', hr', hr'eq⟩
    · rw [if_neg hc0] at hr
      refine ih (ToolDatabase.deleteTool d sn r0.toolName) ?_ r hr hsn
      intro q hq hqsn hqc
      have hqd : q ∈ d := (List.mem_filter.mp hq).1
      obtain ⟨r', hr', hr'eq⟩ := hwit q hqd hqsn hqc
      rcases List.mem_cons.mp hr' with rfl | hr'
      · have hq2 := (List.mem_filter.mp hq).2
        rw [hr'eq] at hq2
        simp [ToolDatabase.keyMatch, hqsn] at hq2
      · exact ⟨r', hr', hr'eq⟩

/-- After the orphan-tool phase of a sync, every surviving row of this server
carries an advertised tool name. -/
theorem orphanToolPhase_advertised (db : DB) (sn : String) (names : List String)
    (r : StoredTool) (hr : r ∈ orphanToolPhase db sn names)
    (hsn : r.serverName = sn) : names.contains r.toolName = true := by
  unfold orphanToolPhase at hr
  refine orphanFold_advertised sn names (ToolDatabase.getServerTools db sn) db
    ?_ r hr hsn
  intro q hq hqsn _
  refine ⟨ToolDatabase.rowToStored q, ?_, rfl⟩
  unfold ToolDatabase.getServerTools
  apply List.mem_map.mpr
  exact ⟨q, List.mem_filter.mpr ⟨hq, by simp [hqsn]⟩, rfl⟩

theorem orphanToolPhase_mem_other (db : DB) (sn : String) (names : List String)
    (r : StoredTool) (hr : r ∈ db) (hne : r.serverName ≠ sn) :
    r ∈ orphanToolPhase db sn names :=
  orphanFold_mem_other sn names (ToolDatabase.getServerTools db sn) db r hr hne

theorem orphanToolPhase_isSome (db : DB) (sn : String) (names : List String)
    (n : String) (hn : names.contains n = true)
    (h : (ToolDatabase.getTool db sn n).isSome = true) :
    (ToolDatabase.getTool (orphanToolPhase db sn names) sn n).isSome = true :=
  orphanFold_isSome sn names n hn (ToolDatabase.getServerTools db sn) db h

/-- One sync-loop iteration leaves the lookup of every other tool name of
this server unchanged. -/
theorem syncToolStep_getTool_ne (sn : String) (now : Nat) (d : DB)
    (acc : List Tool) (t : Tool) (n : String) (h : t.name ≠ n) :
    ToolDatabase.getTool (syncToolStep sn now (d, acc) t).1 sn n =
      ToolDatabase.getTool d sn n := by
  unfold syncToolStep
  cases hg : ToolDatabase.getTool d sn t.name with
  | none =>
    apply ToolDatabase.getTool_saveTool_ne
    intro hc
    exact h hc.2
  | some r =>
    cases hs : t.outputSchema with
    | some sch =>
      apply ToolDatabase.getTool_updateTool_ne
      intro hc
      exact h hc.2
    | none => rfl

theorem syncFold_getTool_ne (sn : String) (now : Nat) :
    ∀ (tools : List Tool) (d : DB) (acc : List Tool) (n : String),
    (∀ t ∈ tools, t.name ≠ n) →
    ToolDatabase.getTool (tools.foldl (syncToolStep sn now) (d, acc)).1 sn n =
      ToolDatabase.getTool d sn n := by
  intro tools
  induction tools with
  | nil => intro d acc n _; rfl
  | cons t tools ih =>
    intro d acc n h
    rw [List.foldl_cons]
    rw [show syncToolStep sn now (d, acc) t
        = ((syncToolStep sn now (d, acc) t).1, (syncToolStep sn now (d, acc) t).2)
        from Prod.mk.eta.symm]
    rw [ih _ _ n (fun t' ht' => h t' (List.mem_cons_of_mem _ ht'))]
    exact syncToolStep_getTool_ne sn now d acc t n (h t (List.mem_cons_self t tools))

theorem syncToolStep_isSome (sn : String) (now : Nat) (d : DB)
    (acc : List Tool) (t : Tool) (n : String)
    (h : (ToolDatabase.getTool d sn n).isSome = true) :
    (ToolDatabase.getTool (syncToolStep sn now (d, acc) t).1 sn n).isSome = true := by
  unfold syncToolStep
  cases hg : ToolDatabase.getTool d sn t.name with
  | none => exact ToolDatabase.getTool_saveTool_isSome d _ sn n h
  | some r =>
    cases hs : t.outputSchema with
    | some sch => exact ToolDatabase.getTool_updateTool_isSome d sn t.name _ true now sn n h
    | none => exact h

theorem syncFold_isSome (sn : String) (now : Nat) :
    ∀ (tools : List Tool) (d : DB) (acc : List Tool) (n : String),
    (ToolDatabase.getTool d sn n).isSome = true →
    (ToolDatabase.getTool (tools.foldl (syncToolStep sn now) (d, acc)).1 sn n).isSome = true := by
  intro tools
  induction tools with
  | nil => intro d acc n h; exact h
  | cons t tools ih =>
    intro d acc n h
    rw [List.foldl_cons]
    rw [show syncToolStep sn now (d, acc) t
        = ((syncToolStep sn now (d, acc) t).1, (syncToolStep sn now (d, acc) t).2)
        from Prod.mk.eta.symm]
    exact ih _ _ n (syncToolStep_isSome sn now d acc t n h)

theorem syncToolStep_mem_other (sn : String) (now : Nat) (d : DB)
    (acc : List Tool) (t : Tool) (r : StoredTool) (hr : r ∈ d)
    (hne : r.serverName ≠ sn) : r ∈ (syncToolStep sn now (d, acc) t).1 := by
  have hkey : ∀ tn, ToolDatabase.keyMatch sn tn r = false := by
    intro tn
    simp [ToolDatabase.keyMatch, hne]
  unfold syncToolStep
  cases hg : ToolDatabase.getTool d sn t.name with
  | none =>
    unfold ToolDatabase.saveTool
    by_cases hany : d.any (ToolDatabase.keyMatch sn t.name) = true
    · rw [if_pos (by simpa using hany)]
      have : (if ToolDatabase.keyMatch sn t.name r = true then
          { r with outputSchema := jsStrOrNull (t.outputSchema.map JSONStringify),
                   originalOutputSchema := t.outputSchema.isSome,
                   lastUpdated := now } else r) = r := by
        rw [if_neg (by simp [hkey])]
      exact List.mem_map.mpr ⟨r, hr, this⟩
    · rw [if_neg (by simpa using hany)]
      exact List.mem_append_left _ hr
  | some r0 =>
    cases hs : t.outputSchema with
    | some sch =>
      unfold ToolDatabase.updateTool
      have : (if ToolDatabase.keyMatch sn t.name r = true then
          { r with outputSchema := some (JSONStringify sch),
                   originalOutputSchema := true, lastUpdated := now } else r) = r := by
        rw [if_neg (by simp [hkey])]
      exact List.mem_map.mpr ⟨r, hr, this⟩
    | none => exact hr

theorem syncFold_mem_other (sn : String) (now : Nat) :
    ∀ (tools : List Tool) (d : DB) (acc : List Tool) (r : StoredTool),
    r ∈ d → r.serverName ≠ sn →
    r ∈ (tools.foldl (syncToolStep sn now) (d, acc)).1 := by
  intro tools
  induction tools with
  | nil => intro d acc r h _; exact h
  | cons t tools ih =>
    intro d acc r h hne
    rw [List.foldl_cons]
    rw [show syncToolStep sn now (d, acc) t
        = ((syncToolStep sn now (d, acc) t).1, (syncToolStep sn now (d, acc) t).2)
        from Prod.mk.eta.symm]
    exact ih _ _ r (syncToolStep_mem_other sn now d acc t r h hne) hne

end ServerRegistryService

end Helpers

theorem find?_none_of_any_false {α : Type _} {p : α → Bool} {l : List α}
    (h : l.any p = false) : l.find? p = none := by
  apply List.find?_eq_none.mpr
  intro x hx hpx
  exact absurd (List.any_eq_true.mpr ⟨x, hx, hpx⟩) (by simp [h])

namespace VectorStoreImpl

theorem lookup_append_single_self {α : Type _} (m : List (String × α)) (k : String)
    (v : α) (h : m.lookup k = none) : (m ++ [(k, v)]).lookup k = some v := by
  induction m with
  | nil => simp [List.lookup_cons]
  | cons p m ih =>
    obtain ⟨p1, p2⟩ := p
    rw [List.cons_append, List.lookup_cons]
    rw [List.lookup_cons] at h
    cases hk : (k == p1) with
    | true => rw [hk] at h; exact Option.noConfusion h
    | false => rw [hk] at h; exact ih h

theorem lookup_append_single_ne {α : Type _} (m : List (String × α)) (k : String)
    (v : α) (k' : String) (h : k' ≠ k) : (m ++ [(k, v)]).lookup k' = m.lookup k' := by
  induction m with
  | nil =>
    have hk : (k' == k) = false := by simpa using h
    simp [List.lookup_cons, hk]
  | cons p m ih =>
    obtain ⟨p1, p2⟩ := p
    rw [List.cons_append, List.lookup_cons, List.lookup_cons]
    cases hk : (k' == p1) with
    | true => rfl
    | false => exact ih

theorem lookup_none_of_any_false {α : Type _} (m : List (String × α)) (k : String)
    (h : m.any (·.1 == k) = false) : m.lookup k = none := by
  induction m with
  | nil => rfl
  | cons p m ih =>
    obtain ⟨p1, p2⟩ := p
    simp only [List.any_cons, Bool.or_eq_false_iff] at h
    rw [List.lookup_cons]
    have hk : (k == p1) = false := by
      have := h.1
      simp only [beq_eq_false_iff_ne] at this ⊢
      exact fun hc => this hc.symm
    rw [hk]
    exact ih h.2

theorem lookup_map_replace {α : Type _} (m : List (String × α)) (k : String) (v : α)
    (hany : m.any (·.1 == k) = true) :
    ((m.map fun p => if p.1 == k then (k, v) else p).lookup k) = some v := by
  induction m with
  | nil => simp at hany
  | cons p m ih =>
    obtain ⟨p1, p2⟩ := p
    rw [List.map_cons]
    cases hpk : (p1 == k) with
    | true =>
      rw [if_pos rfl, List.lookup_cons]
      simp
    | false =>
      have hany' : m.any (·.1 == k) = true := by
        simpa [List.any_cons, hpk] using hany
      have hk : (k == p1) = false := by
        simp only [beq_eq_false_iff_ne] at hpk ⊢
        exact fun hc => hpk hc.symm
      rw [if_neg (by simp), List.lookup_cons, hk]
      exact ih hany'

theorem lookup_map_replace_ne {α : Type _} (m : List (String × α)) (k : String)
    (v : α) (k' : String) (h : k' ≠ k) :
    ((m.map fun p => if p.1 == k then (k, v) else p).lookup k') = m.lookup k' := by
  induction m with
  | nil => rfl
  | cons p m ih =>
    obtain ⟨p1, p2⟩ := p
    rw [List.map_cons]
    cases hpk : (p1 == k) with
    | true =>
      have hp1 : p1 = k := by simpa using hpk
      have hk1 : (k' == k) = false := by simpa using h
      rw [if_pos rfl, List.lookup_cons, List.lookup_cons, hp1, hk1]
      exact ih
    | false =>
      rw [if_neg (by simp), List.lookup_cons, List.lookup_cons]
      cases hk : (k' == p1) with
      | true => rfl
      | false => exact ih

theorem mapSet_lookup_self {α : Type _} (m : List (String × α)) (k : String) (v : α) :
    (mapSet m k v).lookup k = some v := by
  unfold mapSet
  by_cases hany : m.any (·.1 == k) = true
  · rw [if_pos hany]
    exact lookup_map_replace m k v hany
  · rw [if_neg hany]
    exact lookup_append_single_self m k v
      (lookup_none_of_any_false m k (Bool.eq_false_iff.mpr hany))

theorem mapSet_lookup_ne {α : Type _} (m : List (String × α)) (k : String) (v : α)
    (k' : String) (h : k' ≠ k) : (mapSet m k v).lookup k' = m.lookup k' := by
  unfold mapSet
  by_cases hany : m.any (·.1 == k) = true
  · rw [if_pos hany]
    exact lookup_map_replace_ne m k v k' h
  · rw [if_neg hany]
    exact lookup_append_single_ne m k v k' h

theorem mapSet_lookup_isSome {α : Type _} (m : List (String × α)) (k : String)
    (v : α) (k' : String) (h : (m.lookup k').isSome = true) :
    ((mapSet m k v).lookup k').isSome = true := by
  by_cases hk : k' = k
  · subst hk; rw [mapSet_lookup_self]; rfl
  · rw [mapSet_lookup_ne m k v k' hk]; exact h

theorem find?_map_upsert_self {E : Type _} (idx : List (IndexItem E))
    (it : IndexItem E) (hany : idx.any (·.id == it.id) = true) :
    ((idx.map fun x => if x.id == it.id then it else x).find? (·.id == it.id)) =
      some it := by
  induction idx with
  | nil => simp at hany
  | cons x idx ih =>
    rw [List.map_cons]
    cases hx : (x.id == it.id) with
    | true =>
      rw [if_pos rfl, List.find?_cons]
      simp
    | false =>
      have hany' : idx.any (·.id == it.id) = true := by
        simpa [List.any_cons, hx] using hany
      rw [if_neg (by simp), List.find?_cons, hx]
      exact ih hany'

theorem find?_map_upsert_ne {E : Type _} (idx : List (IndexItem E))
    (it : IndexItem E) (id' : String) (h : id' ≠ it.id) :
    ((idx.map fun x => if x.id == it.id then it else x).find? (·.id == id')) =
      idx.find? (·.id == id') := by
  have hitid : (it.id == id') = false := by
    simp only [beq_eq_false_iff_ne]
    exact fun hc => h hc.symm
  induction idx with
  | nil => rfl
  | cons x idx ih =>
    rw [List.map_cons]
    cases hx : (x.id == it.id) with
    | true =>
      have hx' : x.id = it.id := by simpa using hx
      rw [if_pos rfl, List.find?_cons, List.find?_cons, hx', hitid]
      exact ih
    | false =>
      rw [if_neg (by simp), List.find?_cons, List.find?_cons]
      cases hk : (x.id == id') with
      | true => rfl
      | false => exact ih

theorem upsertItem_find?_self {E : Type _} (idx : List (IndexItem E))
    (it : IndexItem E) :
    (upsertItem idx it).find? (·.id == it.id) = some it := by
  unfold upsertItem
  by_cases hany : idx.any (·.id == it.id) = true
  · rw [if_pos hany]
    exact find?_map_upsert_self idx it hany
  · rw [if_neg hany]
    rw [List.find?_append, find?_none_of_any_false (Bool.eq_false_iff.mpr hany),
      Option.none_or, List.find?_cons]
    simp

theorem upsertItem_find?_ne {E : Type _} (idx : List (IndexItem E))
    (it : IndexItem E) (id' : String) (h : id' ≠ it.id) :
    (upsertItem idx it).find? (·.id == id') = idx.find? (·.id == id') := by
  have hitid : (it.id == id') = false := by
    simp only [beq_eq_false_iff_ne]
    exact fun hc => h hc.symm
  unfold upsertItem
  by_cases hany : idx.any (·.id == it.id) = true
  · rw [if_pos hany]
    exact find?_map_upsert_ne idx it id' h
  · rw [if_neg hany]
    rw [List.find?_append, List.find?_cons, List.find?_nil, hitid]
    cases idx.find? (·.id == id') <;> rfl

theorem upsertItem_find?_isSome {E : Type _} (idx : List (IndexItem E))
    (it : IndexItem E) (id' : String)
    (h : (idx.find? (·.id == id')).isSome = true) :
    ((upsertItem idx it).find? (·.id == id')).isSome = true := by
  by_cases hk : id' = it.id
  · subst hk; rw [upsertItem_find?_self]; rfl
  · rw [upsertItem_find?_ne idx it id' hk]; exact h

theorem indexOneTool_lookup_self {E : Type _} (embed : String → E) (sn : String)
    (st : VSState E) (t : Tool) :
    (indexOneTool embed sn st t).toolsMap.lookup (sn ++ "/" ++ t.name) =
      some { serverName := sn, toolName := t.name, description := embedText t,
             tool := t } ∧
    (indexOneTool embed sn st t).index.find? (·.id == sn ++ "/" ++ t.name) =
      some { id := sn ++ "/" ++ t.name, vector := embed (embedText t),
             metadataServerName := sn, metadataToolName := t.name,
             metadataDescription := embedText t } := by
  simp only [indexOneTool]
  exact ⟨mapSet_lookup_self _ _ _,
    upsertItem_find?_self st.index
      ⟨sn ++ "/" ++ t.name, embed (embedText t), sn, t.name, embedText t⟩⟩

theorem indexOneTool_lookup_ne {E : Type _} (embed : String → E) (sn : String)
    (st : VSState E) (t : Tool) (id' : String) (h : id' ≠ sn ++ "/" ++ t.name) :
    (indexOneTool embed sn st t).toolsMap.lookup id' = st.toolsMap.lookup id' ∧
    (indexOneTool embed sn st t).index.find? (·.id == id') =
      st.index.find? (·.id == id') := by
  simp only [indexOneTool]
  exact ⟨mapSet_lookup_ne _ _ _ _ h,
    upsertItem_find?_ne st.index
      ⟨sn ++ "/" ++ t.name, embed (embedText t), sn, t.name, embedText t⟩ id' h⟩

theorem indexOneTool_isSome {E : Type _} (embed : String → E) (sn : String)
    (st : VSState E) (t : Tool) (id' : String)
    (h : (st.toolsMap.lookup id').isSome = true) :
    ((indexOneTool embed sn st t).toolsMap.lookup id').isSome = true := by
  simp only [indexOneTool]
  exact mapSet_lookup_isSome _ _ _ _ h

theorem foldTools_lookup_ne {E : Type _} (embed : String → E) (sn : String) :
    ∀ (ts : List Tool) (st : VSState E) (id' : String),
    (∀ t ∈ ts, sn ++ "/" ++ t.name ≠ id') →
    (ts.foldl (indexOneTool embed sn) st).toolsMap.lookup id' =
      st.toolsMap.lookup id' ∧
    (ts.foldl (indexOneTool embed sn) st).index.find? (·.id == id') =
      st.index.find? (·.id == id') := by
  intro ts
  induction ts with
  | nil => intro st id' _; exact ⟨rfl, rfl⟩
  | cons t ts ih =>
    intro st id' h
    rw [List.foldl_cons]
    have hstep := indexOneTool_lookup_ne embed sn st t id'
      (fun hc => h t (List.mem_cons_self t ts) hc.symm)
    obtain ⟨h1, h2⟩ := ih (indexOneTool embed sn st t) id'
      (fun t' ht' => h t' (List.mem_cons_of_mem _ ht'))
    exact ⟨h1.trans hstep.1, h2.trans hstep.2⟩

theorem foldTools_sets {E : Type _} (embed : String → E) (sn : String) :
    ∀ (ts : List Tool) (st : VSState E),
    (ts.map (fun t => sn ++ "/" ++ t.name)).Nodup →
    ∀ t ∈ ts,
      (ts.foldl (indexOneTool embed sn) st).toolsMap.lookup (sn ++ "/" ++ t.name) =
        some { serverName := sn, toolName := t.name, description := embedText t,
               tool := t } ∧
      (ts.foldl (indexOneTool embed sn) st).index.find? (·.id == sn ++ "/" ++ t.name) =
        some { id := sn ++ "/" ++ t.name, vector := embed (embedText t),
               metadataServerName := sn, metadataToolName := t.name,
               metadataDescription := embedText t } := by
  intro ts
  induction ts with
  | nil => intro st _ t ht; simp at ht
  | cons t0 ts ih =>
    intro st hnodup t ht
    rw [List.foldl_cons]
    rcases List.mem_cons.mp ht with rfl | ht
    · have hset := indexOneTool_lookup_self embed sn st t
      have hne : ∀ t' ∈ ts, sn ++ "/" ++ t'.name ≠ sn ++ "/" ++ t.name := by
        intro t' ht' hc
        have hmem : sn ++ "/" ++ t.name ∈ ts.map (fun t => sn ++ "/" ++ t.name) :=
          List.mem_map.mpr ⟨t', ht', hc⟩
        exact (List.nodup_cons.mp (by simpa using hnodup)).1 hmem
      obtain ⟨hp1, hp2⟩ := foldTools_lookup_ne embed sn ts
        (indexOneTool embed sn st t) (sn ++ "/" ++ t.name) hne
      exact ⟨hp1.trans hset.1, hp2.trans hset.2⟩
    · exact ih (indexOneTool embed sn st t0)
        (List.nodup_cons.mp (by simpa using hnodup)).2 t ht

theorem foldTools_isSome {E : Type _} (embed : String → E) (sn : String) :
    ∀ (ts : List Tool) (st : VSState E) (id' : String),
    (st.toolsMap.lookup id').isSome = true →
    ((ts.foldl (indexOneTool embed sn) st).toolsMap.lookup id').isSome = true := by
  intro ts
  induction ts with
  | nil => intro st id' h; exact h
  | cons t ts ih =>
    intro st id' h
    rw [List.foldl_cons]
    exact ih _ _ (indexOneTool_isSome embed sn st t id' h)

/-- The body of the per-server loop of `indexTools`. -/
theorem foldServers_lookup_ne {E : Type _} (embed : String → E) :
    ∀ (servers : ServersInfo) (st : VSState E) (id' : String),
    (∀ p ∈ servers, ∀ t ∈ p.2.tools, p.1 ++ "/" ++ t.name ≠ id') →
    ((servers.foldl (fun s p => p.2.tools.foldl (indexOneTool embed p.1) s) st).toolsMap.lookup id' =
      st.toolsMap.lookup id') ∧
    ((servers.foldl (fun s p => p.2.tools.foldl (indexOneTool embed p.1) s) st).index.find? (·.id == id') =
      st.index.find? (·.id == id')) := by
  intro servers
  induction servers with
  | nil => intro st id' _; exact ⟨rfl, rfl⟩
  | cons p rest ih =>
    intro st id' h
    rw [List.foldl_cons]
    have hstep := foldTools_lookup_ne embed p.1 p.2.tools st id'
      (fun t ht => h p (List.mem_cons_self p rest) t ht)
    obtain ⟨h1, h2⟩ := ih (p.2.tools.foldl (indexOneTool embed p.1) st) id'
      (fun q hq t ht => h q (List.mem_cons_of_mem _ hq) t ht)
    exact ⟨h1.trans hstep.1, h2.trans hstep.2⟩

theorem foldServers_sets {E : Type _} (embed : String → E) :
    ∀ (servers : ServersInfo) (st : VSState E),
    (servers.flatMap (fun p => p.2.tools.map (fun t => p.1 ++ "/" ++ t.name))).Nodup →
    ∀ p ∈ servers, ∀ t ∈ p.2.tools,
      ((servers.foldl (fun s q => q.2.tools.foldl (indexOneTool embed q.1) s) st).toolsMap.lookup
          (p.1 ++ "/" ++ t.name) =
        some { serverName := p.1, toolName := t.name, description := embedText t,
               tool := t }) ∧
      ((servers.foldl (fun s q => q.2.tools.foldl (indexOneTool embed q.1) s) st).index.find?
          (·.id == p.1 ++ "/" ++ t.name) =
        some { id := p.1 ++ "/" ++ t.name, vector := embed (embedText t),
               metadataServerName := p.1, metadataToolName := t.name,
               metadataDescription := embedText t }) := by
  intro servers
  induction servers with
  | nil => intro st _ p hp; simp at hp
  | cons q rest ih =>
    intro st hids p hp t ht
    rw [List.foldl_cons]
    have hids' := hids
    rw [List.flatMap_cons, List.nodup_append] at hids'
    obtain ⟨hq, hrest, hdisj⟩ := hids'
    rcases List.mem_cons.mp hp with rfl | hp
    · have hset := foldTools_sets embed p.1 p.2.tools st hq t ht
      have hne : ∀ q' ∈ rest, ∀ t' ∈ q'.2.tools,
          q'.1 ++ "/" ++ t'.name ≠ p.1 ++ "/" ++ t.name := by
        intro q' hq' t' ht' hc
        have hmem1 : p.1 ++ "/" ++ t.name ∈
            p.2.tools.map (fun t => p.1 ++ "/" ++ t.name) :=
          List.mem_map.mpr ⟨t, ht, rfl⟩
        have hmem2 : p.1 ++ "/" ++ t.name ∈
            rest.flatMap (fun p => p.2.tools.map (fun t => p.1 ++ "/" ++ t.name)) := by
          rw [List.mem_flatMap]
          exact ⟨q', hq', List.mem_map.mpr ⟨t', ht', hc⟩⟩
        exact hdisj hmem1 hmem2
      obtain ⟨hp1, hp2⟩ := foldServers_lookup_ne embed rest
        (p.2.tools.foldl (indexOneTool embed p.1) st) (p.1 ++ "/" ++ t.name) hne
      exact ⟨hp1.trans hset.1, hp2.trans hset.2⟩
    · exact ih (q.2.tools.foldl (indexOneTool embed q.1) st) hrest p hp t ht

theorem foldServers_isSome {E : Type _} (embed : String → E) :
    ∀ (servers : ServersInfo) (st : VSState E) (id' : String),
    (st.toolsMap.lookup id').isSome = true →
    ((servers.foldl (fun s p => p.2.tools.foldl (indexOneTool embed p.1) s) st).toolsMap.lookup
      id').isSome = true := by
  intro servers
  induction servers with
  | nil => intro st id' h; exact h
  | cons p rest ih =>
    intro st id' h
    rw [List.foldl_cons]
    exact ih _ _ (foldTools_isSome embed p.1 p.2.tools st id' h)

end VectorStoreImpl

theorem lookup_isSome_iff_mem_keys {α : Type _} (l : List (String × α)) (k : String) :
    (l.lookup k).isSome = true ↔ k ∈ l.map Prod.fst := by
  induction l with
  | nil => simp
  | cons p l ih =>
    obtain ⟨p1, p2⟩ := p
    rw [List.lookup_cons]
    cases hk : (k == p1) with
    | true =>
      have : k = p1 := by simpa using hk
      simp [this]
    | false =>
      have : k ≠ p1 := by simpa using hk
      simp [this, ih]

theorem lookup_isSome_of_mem {α : Type _} {l : List (String × α)} {k : String}
    {v : α} (h : (k, v) ∈ l) : (l.lookup k).isSome = true := by
  rw [lookup_isSome_iff_mem_keys]
  exact List.mem_map.mpr ⟨(k, v), h, rfl⟩

theorem lookup_eq_of_mem_nodup {α : Type _} {l : List (String × α)} {k : String}
    {v : α} (hnodup : (l.map Prod.fst).Nodup) (h : (k, v) ∈ l) :
    l.lookup k = some v := by
  induction l with
  | nil => simp at h
  | cons p l ih =>
    obtain ⟨p1, p2⟩ := p
    rw [List.lookup_cons]
    rcases List.mem_cons.mp h with heq | hmem
    · obtain ⟨rfl, rfl⟩ := Prod.mk.injEq .. ▸ heq
      simp
    · cases hk : (k == p1) with
      | true =>
        have hkp : k = p1 := by simpa using hk
        exfalso
        have : p1 ∈ l.map Prod.fst := List.mem_map.mpr ⟨(k, v), hmem, hkp⟩
        exact (List.nodup_cons.mp (by simpa using hnodup)).1 this
      | false =>
        exact ih (List.nodup_cons.mp (by simpa using hnodup)).2 hmem

theorem foldl_if_id {α β : Type _} (cond : α → Bool) (g : β → α → β) :
    ∀ (l : List α) (d : β), (∀ x ∈ l, cond x = true) →
    l.foldl (fun d x => if cond x then d else g d x) d = d := by
  intro l
  induction l with
  | nil => intro d _; rfl
  | cons x l ih =>
    intro d h
    rw [List.foldl_cons, if_pos (h x (List.mem_cons_self x l))]
    exact ih d (fun y hy => h y (List.mem_cons_of_mem _ hy))

namespace ServerRegistryService
open ToolDatabase

theorem stripTime_serverName (r : StoredTool) :
    (stripTime r).serverName = r.serverName := rfl

theorem stripTime_eq_fields {r q : StoredTool} (h : stripTime r = stripTime q) :
    r.serverName = q.serverName ∧ r.toolName = q.toolName ∧
    r.outputSchema = q.outputSchema ∧
    r.originalOutputSchema = q.originalOutputSchema := by
  have h1 := congrArg StoredTool.serverName h
  have h2 := congrArg StoredTool.toolName h
  have h3 := congrArg StoredTool.outputSchema h
  have h4 := congrArg StoredTool.originalOutputSchema h
  exact ⟨h1, h2, h3, h4⟩

theorem mem_of_stripTime_eq {D db1 : DB}
    (h : D.map stripTime = db1.map stripTime) {r : StoredTool} (hr : r ∈ D) :
    ∃ r1 ∈ db1, stripTime r = stripTime r1 := by
  have : stripTime r ∈ D.map stripTime := List.mem_map.mpr ⟨r, hr, rfl⟩
  rw [h] at this
  obtain ⟨r1, hr1, heq⟩ := List.mem_map.mp this
  exact ⟨r1, hr1, heq.symm⟩

/-- Rows of a foreign server emerge from one sync iteration only if they went
in (the step adds rows of this server only). -/
theorem syncToolStep_mem_rev (sn : String) (now : Nat) (d : DB)
    (acc : List Tool) (t : Tool) (r : StoredTool)
    (hr : r ∈ (syncToolStep sn now (d, acc) t).1) (hne : r.serverName ≠ sn) :
    r ∈ d := by
  unfold syncToolStep at hr
  cases hg : ToolDatabase.getTool d sn t.name with
  | none =>
    rw [hg] at hr
    unfold ToolDatabase.saveTool at hr
    by_cases hany : d.any (ToolDatabase.keyMatch sn t.name) = true
    · rw [if_pos (by simpa using hany)] at hr
      obtain ⟨r0, hr0, heq⟩ := List.mem_map.mp hr
      by_cases hk : ToolDatabase.keyMatch sn t.name r0 = true
      · rw [if_pos hk] at heq
        exfalso
        apply hne
        rw [← heq]
        exact ((ToolDatabase.keyMatch_iff _ _ r0).mp hk).1
      · rw [if_neg hk] at heq
        exact heq ▸ hr0
    · rw [if_neg (by simpa using hany)] at hr
      rcases List.mem_append.mp hr with h | h
      · exact h
      · exfalso
        apply hne
        rcases List.mem_singleton.mp h with rfl
        rfl
  | some r0 =>
    rw [hg] at hr
    cases hs : t.outputSchema with
    | some sch =>
      rw [hs] at hr
      unfold ToolDatabase.updateTool at hr
      obtain ⟨r1, hr1, heq⟩ := List.mem_map.mp hr
      by_cases hk : ToolDatabase.keyMatch sn t.name r1 = true
      · rw [if_pos hk] at heq
        exfalso
        apply hne
        rw [← heq]
        exact ((ToolDatabase.keyMatch_iff _ _ r1).mp hk).1
      · rw [if_neg hk] at heq
        exact heq ▸ hr1
    | none =>
      rw [hs] at hr
      exact hr

theorem syncFold_mem_rev (sn : String) (now : Nat) :
    ∀ (tools : List Tool) (d : DB) (acc : List Tool) (r : StoredTool),
    r ∈ (tools.foldl (syncToolStep sn now) (d, acc)).1 → r.serverName ≠ sn →
    r ∈ d := by
  intro tools
  induction tools with
  | nil => intro d acc r h _; exact h
  | cons t tools ih =>
    intro d acc r h hne
    rw [List.foldl_cons] at h
    rw [show syncToolStep sn now (d, acc) t
        = ((syncToolStep sn now (d, acc) t).1, (syncToolStep sn now (d, acc) t).2)
        from Prod.mk.eta.symm] at h
    exact syncToolStep_mem_rev sn now d acc t r (ih _ _ r h hne) hne

theorem orphanFold_subset (sn : String) (names : List String) :
    ∀ (l : List StoredTool) (d : DB) (r : StoredTool),
    r ∈ l.foldl
      (fun d r0 => if names.contains r0.toolName then d
                   else ToolDatabase.deleteTool d sn r0.toolName) d →
    r ∈ d := by
  intro l
  induction l with
  | nil => intro d r h; exact h
  | cons r0 l ih =>
    intro d r h
    rw [List.foldl_cons] at h
    have := ih _ r h
    by_cases hc : names.contains r0.toolName = true
    · rwa [if_pos hc] at this
    · rw [if_neg hc] at this
      exact (List.mem_filter.mp this).1

theorem syncToolsToDatabase_mem_rev (db : DB) (sn : String) (tools : List Tool)
    (now : Nat) (r : StoredTool)
    (hr : r ∈ (syncToolsToDatabase db sn tools now).1) (hne : r.serverName ≠ sn) :
    r ∈ db := by
  rw [syncToolsToDatabase_eq] at hr
  exact orphanFold_subset sn _ _ db r
    (syncFold_mem_rev sn now tools _ [] r hr hne)

/-- A sync of another server changes nothing about this server's rows. -/
theorem serverSynced_pres_sync {sn : String} {tools : List Tool} {db : DB}
    (sn' : String) (tools' : List Tool) (now' : Nat) (hne : sn ≠ sn')
    (hS : ServerSynced sn tools db) :
    ServerSynced sn tools (syncToolsToDatabase db sn' tools' now').1 := by
  obtain ⟨hH, hG, hF⟩ := hS
  refine ⟨?_, ?_, ?_⟩
  · intro r hr hrs
    exact hH r (syncToolsToDatabase_mem_rev db sn' tools' now' r hr
      (hrs ▸ hne)) hrs
  · intro t ht
    obtain ⟨r, hr, hr1, hr2⟩ := hG t ht
    refine ⟨r, ?_, hr1, hr2⟩
    rw [syncToolsToDatabase_eq]
    exact syncFold_mem_other sn' now' tools' _ [] r
      (orphanToolPhase_mem_other db sn' _ r hr (by rw [hr1]; exact hne))
      (by rw [hr1]; exact hne)
  · intro t ht s hs r hr hr1 hr2
    exact hF t ht s hs r
      (syncToolsToDatabase_mem_rev db sn' tools' now' r hr (hr1 ▸ hne)) hr1 hr2

/-- Rows of a registered server survive orphan-server cleanup untouched. -/
theorem cleanupFold_mem_pres (st : ServersInfo) (sn : String)
    (hreg : (st.lookup sn).isSome = true) :
    ∀ (ns : List String) (d : DB) (r : StoredTool), r ∈ d → r.serverName = sn →
    r ∈ ns.foldl
      (fun d n => if (st.lookup n).isSome then d
                  else ToolDatabase.deleteServerTools d n) d := by
  intro ns
  induction ns with
  | nil => intro d r h _; exact h
  | cons n ns ih =>
    intro d r h hrs
    rw [List.foldl_cons]
    apply ih _ r ?_ hrs
    by_cases hc : (st.lookup n).isSome = true
    · rwa [if_pos hc]
    · rw [if_neg hc]
      apply List.mem_filter.mpr
      refine ⟨h, ?_⟩
      have hne : sn ≠ n := fun hcon => hc (hcon ▸ hreg)
      simp [hrs, hne]

theorem serverSynced_pres_cleanup {sn : String} {tools : List Tool} {db : DB}
    (st : ServersInfo) (hreg : (st.lookup sn).isSome = true)
    (hS : ServerSynced sn tools db) :
    ServerSynced sn tools (cleanupOrphanedServers st db) := by
  obtain ⟨hH, hG, hF⟩ := hS
  refine ⟨?_, ?_, ?_⟩
  · intro r hr hrs
    exact hH r (cleanupFold_subset st _ db r hr) hrs
  · intro t ht
    obtain ⟨r, hr, hr1, hr2⟩ := hG t ht
    exact ⟨r, cleanupFold_mem_pres st sn hreg _ db r hr hr1, hr1, hr2⟩
  · intro t ht s hs r hr hr1 hr2
    exact hF t ht s hs r (cleanupFold_subset st _ db r hr) hr1 hr2

/-- Every row after one sync iteration either keeps the key of an input row or
carries the key (sn, t.name) of the processed tool. -/
theorem syncToolStep_keys (sn : String) (now : Nat) (d : DB) (acc : List Tool)
    (t : Tool) (r : StoredTool) (hr : r ∈ (syncToolStep sn now (d, acc) t).1) :
    (∃ r0 ∈ d, r.serverName = r0.serverName ∧ r.toolName = r0.toolName) ∨
    (r.serverName = sn ∧ r.toolName = t.name) := by
  unfold syncToolStep at hr
  cases hg : ToolDatabase.getTool d sn t.name with
  | none =>
    rw [hg] at hr
    unfold ToolDatabase.saveTool at hr
    by_cases hany : d.any (ToolDatabase.keyMatch sn t.name) = true
    · rw [if_pos (by simpa using hany)] at hr
      obtain ⟨r0, hr0, heq⟩ := List.mem_map.mp hr
      left
      refine ⟨r0, hr0, ?_⟩
      by_cases hk : ToolDatabase.keyMatch sn t.name r0 = true
      · rw [if_pos hk] at heq
        obtain ⟨h1, h2⟩ := (ToolDatabase.keyMatch_iff _ _ r0).mp hk
        rw [← heq]
        exact ⟨rfl, rfl⟩
      · rw [if_neg hk] at heq
        rw [← heq]
        exact ⟨rfl, rfl⟩
    · rw [if_neg (by simpa using hany)] at hr
      rcases List.mem_append.mp hr with h | h
      · exact Or.inl ⟨r, h, rfl, rfl⟩
      · rcases List.mem_singleton.mp h with rfl
        exact Or.inr ⟨rfl, rfl⟩
  | some r0 =>
    rw [hg] at hr
    cases hs : t.outputSchema with
    | some sch =>
      rw [hs] at hr
      unfold ToolDatabase.updateTool at hr
      obtain ⟨r1, hr1, heq⟩ := List.mem_map.mp hr
      left
      refine ⟨r1, hr1, ?_⟩
      by_cases hk : ToolDatabase.keyMatch sn t.name r1 = true
      · rw [if_pos hk] at heq
        rw [← heq]
        exact ⟨rfl, rfl⟩
      · rw [if_neg hk] at heq
        rw [← heq]
        exact ⟨rfl, rfl⟩
    | none =>
      rw [hs] at hr
      exact Or.inl ⟨r, hr, rfl, rfl⟩

/-- The per-tool loop keeps every row's tool name inside an invariant name
set. -/
theorem syncFold_names_inv (sn : String) (now : Nat) (P : String → Prop) :
    ∀ (tools : List Tool) (d : DB) (acc : List Tool),
    (∀ r ∈ d, r.serverName = sn → P r.toolName) →
    (∀ t ∈ tools, P t.name) →
    ∀ r ∈ (tools.foldl (syncToolStep sn now) (d, acc)).1,
      r.serverName = sn → P r.toolName := by
  intro tools
  induction tools with
  | nil => intro d acc hd _ r hr hrs; exact hd r hr hrs
  | cons t tools ih =>
    intro d acc hd ht r hr hrs
    rw [List.foldl_cons] at hr
    rw [show syncToolStep sn now (d, acc) t
        = ((syncToolStep sn now (d, acc) t).1, (syncToolStep sn now (d, acc) t).2)
        from Prod.mk.eta.symm] at hr
    refine ih _ _ ?_ (fun t' ht' => ht t' (List.mem_cons_of_mem _ ht')) r hr hrs
    intro q hq hqs
    rcases syncToolStep_keys sn now d acc t q hq with ⟨r0, hr0, h1, h2⟩ | ⟨_, h2⟩
    · rw [h2]
      exact hd r0 hr0 (h1 ▸ hqs)
    · rw [h2]
      exact ht t (List.mem_cons_self t tools)

/-- After one sync iteration, the processed tool's key is present. -/
theorem syncToolStep_self_isSome (sn : String) (now : Nat) (d : DB)
    (acc : List Tool) (t : Tool) :
    (ToolDatabase.getTool (syncToolStep sn now (d, acc) t).1 sn t.name).isSome = true := by
  unfold syncToolStep
  cases hg : ToolDatabase.getTool d sn t.name with
  | none =>
    have hfind : d.find? (ToolDatabase.keyMatch sn t.name) = none := by
      unfold ToolDatabase.getTool at hg
      exact Option.map_eq_none'.mp hg
    rw [@ToolDatabase.getTool_saveTool_new d
      { serverName := sn, toolName := t.name,
        outputSchema := t.outputSchema.map JSONStringify,
        originalOutputSchema := t.outputSchema.isSome, lastUpdated := now } hfind]
    rfl
  | some r0 =>
    cases hs : t.outputSchema with
    | some sch =>
      obtain ⟨r1, hr1, _⟩ := Option.map_eq_some'.mp hg
      rw [ToolDatabase.getTool_updateTool_self hr1 (JSONStringify sch) true now]
      rfl
    | none => rw [hg]; rfl

theorem syncFold_self_isSome (sn : String) (now : Nat) :
    ∀ (tools : List Tool) (d : DB) (acc : List Tool) (t : Tool), t ∈ tools →
    (ToolDatabase.getTool (tools.foldl (syncToolStep sn now) (d, acc)).1 sn t.name).isSome = true := by
  intro tools
  induction tools with
  | nil => intro d acc t ht; simp at ht
  | cons t0 tools ih =>
    intro d acc t ht
    rw [List.foldl_cons]
    rw [show syncToolStep sn now (d, acc) t0
        = ((syncToolStep sn now (d, acc) t0).1, (syncToolStep sn now (d, acc) t0).2)
        from Prod.mk.eta.symm]
    rcases List.mem_cons.mp ht with rfl | ht
    · exact syncFold_isSome sn now tools _ _ t.name
        (syncToolStep_self_isSome sn now d acc t)
    · exact ih _ _ t ht

/-- After one sync iteration for a tool advertised with a (non-empty
serialized) schema, every row with its key holds that schema marked
original. -/
theorem syncToolStep_self_content (sn : String) (now : Nat) (d : DB)
    (acc : List Tool) (t : Tool) (s : String) (hs : t.outputSchema = some s)
    (hne : s ≠ "") :
    ∀ r ∈ (syncToolStep sn now (d, acc) t).1, r.serverName = sn →
      r.toolName = t.name →
      r.outputSchema = some (JSONStringify s) ∧ r.originalOutputSchema = true := by
  intro r hr hrs hrt
  unfold syncToolStep at hr
  cases hg : ToolDatabase.getTool d sn t.name with
  | none =>
    rw [hg] at hr
    unfold ToolDatabase.saveTool at hr
    have hfind : d.find? (ToolDatabase.keyMatch sn t.name) = none := by
      unfold ToolDatabase.getTool at hg
      exact Option.map_eq_none'.mp hg
    have hany : d.any (ToolDatabase.keyMatch sn t.name) = false := by
      rw [List.any_eq_false]
      intro q hq
      exact List.find?_eq_none.mp hfind q hq
    rw [if_neg (by simp [hany])] at hr
    rcases List.mem_append.mp hr with h | h
    · exfalso
      have := List.find?_eq_none.mp hfind r h
      apply this
      simp [ToolDatabase.keyMatch, hrs, hrt]
    · rcases List.mem_singleton.mp h with rfl
      rw [hs]
      constructor
      · show jsStrOrNull (some (JSONStringify s)) = some (JSONStringify s)
        simp [jsStrOrNull, JSONStringify, hne]
      · rfl
  | some r0 =>
    rw [hg] at hr
    rw [hs] at hr
    unfold ToolDatabase.updateTool at hr
    obtain ⟨r1, hr1, heq⟩ := List.mem_map.mp hr
    by_cases hk : ToolDatabase.keyMatch sn t.name r1 = true
    · rw [if_pos hk] at heq
      rw [← heq]
      exact ⟨rfl, rfl⟩
    · rw [if_neg hk] at heq
      exfalso
      apply hk
      rw [heq]
      simp [ToolDatabase.keyMatch, hrs, hrt]

/-- A sync iteration for a different tool name leaves rows of the given key
untouched (content included). -/
theorem syncToolStep_content_pres (sn : String) (now : Nat) (d : DB)
    (acc : List Tool) (t : Tool) (n : String) (hne : t.name ≠ n)
    (Q : StoredTool → Prop)
    (hd : ∀ r ∈ d, r.serverName = sn → r.toolName = n → Q r) :
    ∀ r ∈ (syncToolStep sn now (d, acc) t).1, r.serverName = sn →
      r.toolName = n → Q r := by
  intro r hr hrs hrt
  unfold syncToolStep at hr
  cases hg : ToolDatabase.getTool d sn t.name with
  | none =>
    rw [hg] at hr
    unfold ToolDatabase.saveTool at hr
    by_cases hany : d.any (ToolDatabase.keyMatch sn t.name) = true
    · rw [if_pos (by simpa using hany)] at hr
      obtain ⟨r1, hr1, heq⟩ := List.mem_map.mp hr
      by_cases hk : ToolDatabase.keyMatch sn t.name r1 = true
      · rw [if_pos hk] at heq
        exfalso
        apply hne
        have hrt1 : r.toolName = t.name := by
          rw [← heq]
          exact ((ToolDatabase.keyMatch_iff _ _ r1).mp hk).2
        rw [← hrt1, hrt]
      · rw [if_neg hk] at heq
        exact heq ▸ hd r1 hr1 (heq ▸ hrs) (heq ▸ hrt)
    · rw [if_neg (by simpa using hany)] at hr
      rcases List.mem_append.mp hr with h | h
      · exact hd r h hrs hrt
      · exfalso
        rcases List.mem_singleton.mp h with rfl
        exact hne (by rw [← hrt])
  | some r0 =>
    rw [hg] at hr
    cases hsch : t.outputSchema with
    | some sch =>
      rw [hsch] at hr
      unfold ToolDatabase.updateTool at hr
      obtain ⟨r1, hr1, heq⟩ := List.mem_map.mp hr
      by_cases hk : ToolDatabase.keyMatch sn t.name r1 = true
      · rw [if_pos hk] at heq
        exfalso
        apply hne
        have hrt1 : r.toolName = t.name := by
          rw [← heq]
          exact ((ToolDatabase.keyMatch_iff _ _ r1).mp hk).2
        rw [← hrt1, hrt]
      · rw [if_neg hk] at heq
        exact heq ▸ hd r1 hr1 (heq ▸ hrs) (heq ▸ hrt)
    | none =>
      rw [hsch] at hr
      exact hd r hr hrs hrt

theorem syncFold_content_pres (sn : String) (now : Nat) (n : String)
    (Q : StoredTool → Prop) :
    ∀ (tools : List Tool) (d : DB) (acc : List Tool),
    (∀ t ∈ tools, t.name ≠ n) →
    (∀ r ∈ d, r.serverName = sn → r.toolName = n → Q r) →
    ∀ r ∈ (tools.foldl (syncToolStep sn now) (d, acc)).1, r.serverName = sn →
      r.toolName = n → Q r := by
  intro tools
  induction tools with
  | nil => intro d acc _ hd r hr hrs hrt; exact hd r hr hrs hrt
  | cons t tools ih =>
    intro d acc h hd r hr hrs hrt
    rw [List.foldl_cons] at hr
    rw [show syncToolStep sn now (d, acc) t
        = ((syncToolStep sn now (d, acc) t).1, (syncToolStep sn now (d, acc) t).2)
        from Prod.mk.eta.symm] at hr
    refine ih _ _ (fun t' ht' => h t' (List.mem_cons_of_mem _ ht')) ?_ r hr hrs hrt
    exact syncToolStep_content_pres sn now d acc t n
      (h t (List.mem_cons_self t tools)) Q hd

theorem syncFold_content (sn : String) (now : Nat) :
    ∀ (tools : List Tool) (d : DB) (acc : List Tool),
    (tools.map (·.name)).Nodup →
    (∀ t ∈ tools, t.outputSchema ≠ some "") →
    ∀ t ∈ tools, ∀ s, t.outputSchema = some s →
    ∀ r ∈ (tools.foldl (syncToolStep sn now) (d, acc)).1, r.serverName = sn →
      r.toolName = t.name →
      r.outputSchema = some (JSONStringify s) ∧ r.originalOutputSchema = true := by
  intro tools
  induction tools with
  | nil => intro d acc _ _ t ht; simp at ht
  | cons t0 tools ih =>
    intro d acc hnodup hnemp t ht s hs r hr hrs hrt
    rw [List.foldl_cons] at hr
    rw [show syncToolStep sn now (d, acc) t0
        = ((syncToolStep sn now (d, acc) t0).1, (syncToolStep sn now (d, acc) t0).2)
        from Prod.mk.eta.symm] at hr
    rcases List.mem_cons.mp ht with rfl | ht
    · have hsne : s ≠ "" := by
        intro hc
        exact hnemp t (List.mem_cons_self t tools) (by rw [hs, hc])
      have hne : ∀ t' ∈ tools, t'.name ≠ t.name := by
        intro t' ht' hc
        have : t.name ∈ tools.map (·.name) := List.mem_map.mpr ⟨t', ht', hc⟩
        exact (List.nodup_cons.mp (by simpa using hnodup)).1 this
      exact syncFold_content_pres sn now t.name
        (fun q => q.outputSchema = some (JSONStringify s) ∧
          q.originalOutputSchema = true) tools _ _ hne
        (syncToolStep_self_content sn now d acc t s hs hsne) r hr hrs hrt
    · exact ih _ _ (List.nodup_cons.mp (by simpa using hnodup)).2
        (fun t' ht' => hnemp t' (List.mem_cons_of_mem _ ht'))
        t ht s hs r hr hrs hrt

/-- Re-running a sync against a database already `ServerSynced` (up to
timestamps) changes nothing but timestamps. -/
theorem sync_idem_modTime (sn : String) (tools : List Tool) (now2 : Nat)
    (db1 : DB) (hS : ServerSynced sn tools db1) :
    ∀ (D : DB), D.map stripTime = db1.map stripTime →
    ((syncToolsToDatabase D sn tools now2).1).map stripTime = db1.map stripTime := by
  intro D hmap
  have horph : orphanToolPhase D sn (tools.map (·.name)) = D := by
    unfold orphanToolPhase
    apply foldl_if_id
    intro r0 hr0
    unfold ToolDatabase.getServerTools at hr0
    obtain ⟨q, hq, hqe⟩ := List.mem_map.mp hr0
    have hqD : q ∈ D := (List.mem_filter.mp hq).1
    have hqs : q.serverName = sn := by simpa using (List.mem_filter.mp hq).2
    obtain ⟨r1, hr1, heq⟩ := mem_of_stripTime_eq hmap hqD
    obtain ⟨e1, e2, _, _⟩ := stripTime_eq_fields heq
    have hmem := hS.1 r1 hr1 (by rw [← e1]; exact hqs)
    rw [← hqe]
    show (tools.map (·.name)).contains q.toolName = true
    rw [e2]
    simpa using hmem
  suffices h : ∀ (ts : List Tool) (D' : DB) (acc : List Tool),
      (∀ t ∈ ts, t ∈ tools) →
      D'.map stripTime = db1.map stripTime →
      ((ts.foldl (syncToolStep sn now2) (D', acc)).1).map stripTime =
        db1.map stripTime by
    rw [syncToolsToDatabase_eq, horph]
    exact h tools D [] (fun t ht => ht) hmap
  intro ts
  induction ts with
  | nil => intro D' acc _ hm; exact hm
  | cons t ts ih =>
    intro D' acc hsub hm
    rw [List.foldl_cons]
    rw [show syncToolStep sn now2 (D', acc) t
        = ((syncToolStep sn now2 (D', acc) t).1, (syncToolStep sn now2 (D', acc) t).2)
        from Prod.mk.eta.symm]
    refine ih _ _ (fun t' ht' => hsub t' (List.mem_cons_of_mem _ ht')) ?_
    have htmem : t ∈ tools := hsub t (List.mem_cons_self t ts)
    unfold syncToolStep
    cases hg : ToolDatabase.getTool D' sn t.name with
    | none =>
      exfalso
      obtain ⟨r1, hr1, h1, h2⟩ := hS.2.1 t htmem
      have hmem1 : stripTime r1 ∈ db1.map stripTime := List.mem_map.mpr ⟨r1, hr1, rfl⟩
      rw [← hm] at hmem1
      obtain ⟨q, hq, heq⟩ := List.mem_map.mp hmem1
      obtain ⟨e1, e2, _, _⟩ := stripTime_eq_fields heq
      have hsome : (ToolDatabase.getTool D' sn t.name).isSome = true := by
        apply (ToolDatabase.getTool_isSome_iff D' sn t.name).mpr
        refine ⟨q, hq, ?_⟩
        apply (ToolDatabase.keyMatch_iff sn t.name q).mpr
        exact ⟨e1.trans h1, e2.trans h2⟩
      rw [hg] at hsome
      exact Bool.noConfusion hsome
    | some r0 =>
      cases hsch : t.outputSchema with
      | none => exact hm
      | some s =>
        show (ToolDatabase.updateTool D' sn t.name (JSONStringify s) true now2).map
          stripTime = db1.map stripTime
        unfold ToolDatabase.updateTool
        rw [List.map_map]
        have hpt : ∀ r ∈ D', (stripTime ∘ fun r =>
            if ToolDatabase.keyMatch sn t.name r = true then
              { r with outputSchema := some (JSONStringify s),
                       originalOutputSchema := true, lastUpdated := now2 }
            else r) r = stripTime r := by
          intro r hr
          by_cases hk : ToolDatabase.keyMatch sn t.name r = true
          · obtain ⟨hk1, hk2⟩ := (ToolDatabase.keyMatch_iff _ _ r).mp hk
            obtain ⟨r1, hr1, heq⟩ := mem_of_stripTime_eq hm hr
            obtain ⟨e1, e2, e3, e4⟩ := stripTime_eq_fields heq
            obtain ⟨hc1, hc2⟩ := hS.2.2 t htmem s hsch r1 hr1 (e1 ▸ hk1) (e2 ▸ hk2)
            show stripTime (if ToolDatabase.keyMatch sn t.name r = true then _ else r)
              = stripTime r
            rw [if_pos hk]
            unfold stripTime
            have hro : r.outputSchema = some (JSONStringify s) := e3.trans hc1
            have hrb : r.originalOutputSchema = true := e4.trans hc2
            rw [← hro, ← hrb]
          · show stripTime (if ToolDatabase.keyMatch sn t.name r = true then _ else r)
              = stripTime r
            rw [if_neg hk]
        rw [List.map_congr_left hpt]
        exact hm

/-- The per-server sync establishes `ServerSynced` for its server. -/
theorem sync_establishes (db : DB) (sn : String) (tools : List Tool) (now : Nat)
    (hnodup : (tools.map (·.name)).Nodup)
    (hnemp : ∀ t ∈ tools, t.outputSchema ≠ some "") :
    ServerSynced sn tools (syncToolsToDatabase db sn tools now).1 := by
  rw [syncToolsToDatabase_eq]
  refine ⟨?_, ?_, ?_⟩
  · apply syncFold_names_inv sn now (· ∈ tools.map (·.name)) tools _ []
    · intro r hr hrs
      have := orphanToolPhase_advertised db sn (tools.map (·.name)) r hr hrs
      simpa using this
    · intro t ht
      exact List.mem_map.mpr ⟨t, ht, rfl⟩
  · intro t ht
    have := syncFold_self_isSome sn now tools
      (orphanToolPhase db sn (tools.map (·.name))) [] t ht
    obtain ⟨r, hr, hk⟩ := (ToolDatabase.getTool_isSome_iff _ sn t.name).mp this
    obtain ⟨h1, h2⟩ := (ToolDatabase.keyMatch_iff _ _ r).mp hk
    exact ⟨r, hr, h1, h2⟩
  · intro t ht s hs r hr hrs hrt
    exact syncFold_content sn now tools _ [] hnodup hnemp t ht s hs r hr hrs hrt

end ServerRegistryService

theorem lookup_mem {α : Type _} : ∀ {l : List (String × α)} {k : String} {v : α},
    l.lookup k = some v → (k, v) ∈ l := by
  intro l
  induction l with
  | nil => intro k v h; exact Option.noConfusion h
  | cons p l ih =>
    intro k v h
    obtain ⟨p1, p2⟩ := p
    rw [List.lookup_cons] at h
    cases hk : (k == p1) with
    | true =>
      rw [hk] at h
      have hk1 : k = p1 := by simpa using hk
      have hv : p2 = v := by simpa using h
      rw [hk1, hv]
      exact List.mem_cons_self _ _
    | false =>
      rw [hk] at h
      exact List.mem_cons_of_mem _ (ih h)

theorem lookup_append_isSome_mono {α : Type _} :
    ∀ (l l2 : List (String × α)) (k : String),
    (l.lookup k).isSome = true → ((l ++ l2).lookup k).isSome = true := by
  intro l
  induction l with
  | nil => intro l2 k h; simp at h
  | cons p l ih =>
    intro l2 k h
    obtain ⟨p1, p2⟩ := p
    rw [List.cons_append, List.lookup_cons]
    rw [List.lookup_cons] at h
    cases hk : (k == p1) with
    | true => rfl
    | false =>
      rw [hk] at h
      exact ih l2 k h

namespace ToolDatabase

theorem uniqueKeys_map_keyfix (db : DB) (f : StoredTool → StoredTool)
    (hkeys : ∀ r, (f r).serverName = r.serverName ∧ (f r).toolName = r.toolName)
    (h : UniqueKeys db) : UniqueKeys (db.map f) := by
  unfold UniqueKeys at *
  rw [List.map_map]
  have : db.map ((fun r => (r.serverName, r.toolName)) ∘ f) =
      db.map (fun r => (r.serverName, r.toolName)) := by
    apply List.map_congr_left
    intro r _
    show ((f r).serverName, (f r).toolName) = (r.serverName, r.toolName)
    rw [(hkeys r).1, (hkeys r).2]
  rw [this]
  exact h

theorem uniqueKeys_filter (db : DB) (p : StoredTool → Bool)
    (h : UniqueKeys db) : UniqueKeys (db.filter p) := by
  unfold UniqueKeys at *
  exact ((List.filter_sublist db).map _).nodup h

theorem uniqueKeys_saveTool (db : DB) (row : StoredTool)
    (h : UniqueKeys db) : UniqueKeys (saveTool db row) := by
  unfold saveTool
  by_cases hany : db.any (keyMatch row.serverName row.toolName) = true
  · rw [if_pos hany]
    apply uniqueKeys_map_keyfix db _ ?_ h
    intro r
    by_cases hk : keyMatch row.serverName row.toolName r = true
    · simp [hk]
    · simp [hk]
  · rw [if_neg hany]
    unfold UniqueKeys at *
    rw [List.map_append]
    rw [List.nodup_append]
    refine ⟨h, by simp, ?_⟩
    intro a ha hb
    simp only [List.map_cons, List.map_nil, List.mem_singleton] at hb
    obtain ⟨r, hr, hre⟩ := List.mem_map.mp ha
    apply hany
    apply List.any_eq_true.mpr
    refine ⟨r, hr, ?_⟩
    have h12 : (r.serverName, r.toolName) = (row.serverName, row.toolName) :=
      hre.trans hb
    have h1 : r.serverName = row.serverName := congrArg Prod.fst h12
    have h2 : r.toolName = row.toolName := congrArg Prod.snd h12
    simp [keyMatch, h1, h2]

theorem uniqueKeys_updateTool (db : DB) (sn tn S : String) (b : Bool) (now : Nat)
    (h : UniqueKeys db) : UniqueKeys (updateTool db sn tn S b now) := by
  unfold updateTool
  apply uniqueKeys_map_keyfix db _ ?_ h
  intro r
  by_cases hk : keyMatch sn tn r = true
  · simp [hk]
  · simp [hk]

end ToolDatabase

namespace ServerRegistryService
open ToolDatabase

theorem uniqueKeys_syncToolStep (sn : String) (now : Nat) (d : DB)
    (acc : List Tool) (t : Tool) (h : UniqueKeys d) :
    UniqueKeys (syncToolStep sn now (d, acc) t).1 := by
  unfold syncToolStep
  cases hg : ToolDatabase.getTool d sn t.name with
  | none => exact uniqueKeys_saveTool d _ h
  | some r0 =>
    cases hs : t.outputSchema with
    | some sch => exact uniqueKeys_updateTool d sn t.name _ true now h
    | none => exact h

theorem uniqueKeys_syncFold (sn : String) (now : Nat) :
    ∀ (tools : List Tool) (d : DB) (acc : List Tool), UniqueKeys d →
    UniqueKeys (tools.foldl (syncToolStep sn now) (d, acc)).1 := by
  intro tools
  induction tools with
  | nil => intro d acc h; exact h
  | cons t tools ih =>
    intro d acc h
    rw [List.foldl_cons]
    rw [show syncToolStep sn now (d, acc) t
        = ((syncToolStep sn now (d, acc) t).1, (syncToolStep sn now (d, acc) t).2)
        from Prod.mk.eta.symm]
    exact ih _ _ (uniqueKeys_syncToolStep sn now d acc t h)

theorem uniqueKeys_orphanFold (sn : String) (names : List String) :
    ∀ (l : List StoredTool) (d : DB), UniqueKeys d →
    UniqueKeys (l.foldl
      (fun d r0 => if names.contains r0.toolName then d
                   else ToolDatabase.deleteTool d sn r0.toolName) d) := by
  intro l
  induction l with
  | nil => intro d h; exact h
  | cons r0 l ih =>
    intro d h
    rw [List.foldl_cons]
    apply ih
    by_cases hc : names.contains r0.toolName = true
    · rwa [if_pos hc]
    · rw [if_neg hc]
      exact uniqueKeys_filter d _ h

theorem uniqueKeys_sync (db : DB) (sn : String) (tools : List Tool) (now : Nat)
    (h : UniqueKeys db) :
    UniqueKeys (syncToolsToDatabase db sn tools now).1 := by
  rw [syncToolsToDatabase_eq]
  exact uniqueKeys_syncFold sn now tools _ []
    (uniqueKeys_orphanFold sn _ _ db h)

theorem uniqueKeys_cleanup (st : ServersInfo) (db : DB) (h : UniqueKeys db) :
    UniqueKeys (cleanupOrphanedServers st db) := by
  unfold cleanupOrphanedServers
  generalize ToolDatabase.getAllServerNames db = ns
  induction ns generalizing db with
  | nil => exact h
  | cons n ns ih =>
    rw [List.foldl_cons]
    by_cases hc : (st.lookup n).isSome = true
    · rw [if_pos hc]
      exact ih db h
    · rw [if_neg hc]
      exact ih _ (uniqueKeys_filter db _ h)

theorem uniqueKeys_registerServerCaught (conns : Connections) (st : ServersInfo)
    (db : DB) (name : String) (now : Nat) (h : UniqueKeys db) :
    UniqueKeys (registerServerCaught conns st db name now).2 := by
  unfold registerServerCaught registerServer
  by_cases h1 : (st.lookup name).isSome = true
  · rw [if_pos h1]
    exact h
  · rw [if_neg h1]
    cases hc : conns.lookup name with
    | none => exact h
    | some client =>
      cases hf : fetchServerTools client with
      | error e =>
        dsimp only
        rw [hf]
        exact h
      | ok tools =>
        dsimp only
        rw [hf]
        exact uniqueKeys_sync db name tools now h

theorem uniqueKeys_regFold (conns : Connections) (now : Nat) :
    ∀ (cs : List (String × Client)) (st : ServersInfo) (db : DB), UniqueKeys db →
    UniqueKeys (cs.foldl
      (fun acc c => registerServerCaught conns acc.1 acc.2 c.1 now) (st, db)).2 := by
  intro cs
  induction cs with
  | nil => intro st db h; exact h
  | cons c cs ih =>
    intro st db h
    rw [List.foldl_cons]
    rw [show registerServerCaught conns st db c.1 now
        = ((registerServerCaught conns st db c.1 now).1,
           (registerServerCaught conns st db c.1 now).2) from Prod.mk.eta.symm]
    exact ih _ _ (uniqueKeys_registerServerCaught conns st db c.1 now h)

theorem uniqueKeys_registerAllServers (conns : Connections) (st : ServersInfo)
    (db : DB) (now : Nat) (h : UniqueKeys db) :
    UniqueKeys (registerAllServers conns st db now).2 := by
  rw [registerAllServers_eq]
  exact uniqueKeys_cleanup _ _ (uniqueKeys_regFold conns now conns st db h)

end ServerRegistryService

theorem strLe_go_trans : ∀ (as bs cs : List Char), strLe.go as bs = true →
    strLe.go bs cs = true → strLe.go as cs = true := by
  intro as
  induction as with
  | nil => intro bs cs _ _; rfl
  | cons a as ih =>
    intro bs cs h1 h2
    cases bs with
    | nil => simp [strLe.go] at h1
    | cons b bs =>
      cases cs with
      | nil => simp [strLe.go] at h2
      | cons c cs =>
        simp only [strLe.go] at h1 h2 ⊢
        by_cases hab : a = b
        · subst hab
          rw [if_pos rfl] at h1
          by_cases hac : a = c
          · subst hac
            rw [if_pos rfl] at h2 ⊢
            exact ih bs cs h1 h2
          · rw [if_neg hac] at h2 ⊢
            exact h2
        · rw [if_neg hab] at h1
          have hab' : a < b := by simpa using h1
          by_cases hbc : b = c
          · subst hbc
            rw [if_neg hab]
            simpa using hab'
          · rw [if_neg hbc] at h2
            have hbc' : b < c := by simpa using h2
            have hac : a < c := lt_trans hab' hbc'
            rw [if_neg (by rintro rfl; exact absurd hac (lt_irrefl _))]
            simpa using hac

theorem strLe_go_total : ∀ (as bs : List Char),
    strLe.go as bs = true ∨ strLe.go bs as = true := by
  intro as
  induction as with
  | nil => intro bs; exact Or.inl rfl
  | cons a as ih =>
    intro bs
    cases bs with
    | nil => exact Or.inr rfl
    | cons b bs =>
      by_cases hab : a = b
      · subst hab
        rcases ih bs with h | h
        · left; simpa [strLe.go] using h
        · right; simpa [strLe.go] using h
      · rcases lt_or_gt_of_ne hab with h | h
        · left; simp [strLe.go, if_neg hab, h]
        · right; simp [strLe.go, if_neg (Ne.symm hab), h]

theorem strLe_trans (a b c : String) (h1 : strLe a b = true) (h2 : strLe b c = true) :
    strLe a c = true :=
  strLe_go_trans a.data b.data c.data h1 h2

theorem strLe_total (a b : String) : strLe a b = true ∨ strLe b a = true :=
  strLe_go_total a.data b.data

instance : IsTrans String (fun a b => strLe a b = true) :=
  ⟨fun a b c => strLe_trans a b c⟩

instance : IsTotal String (fun a b => strLe a b = true) :=
  ⟨strLe_total⟩

namespace ServerRegistryService
open ToolDatabase

theorem registerAllServers_regStep (conns : Connections) (st : ServersInfo)
    (db : DB) (now : Nat) :
    registerAllServers conns st db now =
      ((conns.foldl (regStep conns now) (st, db)).1,
       cleanupOrphanedServers (conns.foldl (regStep conns now) (st, db)).1
         (conns.foldl (regStep conns now) (st, db)).2) := rfl

theorem fetchServerTools_ok (c : Client) (ts : List Tool)
    (h : c.listToolsResult = .ok ts) :
    fetchServerTools c =
      .ok (ts.map fun t => { t with title := some (convertToolName t.name) }) := by
  unfold fetchServerTools
  rw [h]
  rfl

theorem fetchServerTools_err (c : Client) (e : String)
    (h : c.listToolsResult = .error e) : fetchServerTools c = .error e := by
  unfold fetchServerTools
  rw [h]
  rfl

theorem conv_names_nodup (ts : List Tool) (h : (ts.map (·.name)).Nodup) :
    (((ts.map fun t => { t with title := some (convertToolName t.name) }).map
      (·.name)).Nodup) := by
  rw [List.map_map]
  exact h

theorem conv_schema_ne (ts : List Tool)
    (h : ∀ t ∈ ts, t.outputSchema ≠ some "") :
    ∀ t' ∈ ts.map (fun t => { t with title := some (convertToolName t.name) }),
      t'.outputSchema ≠ some "" := by
  intro t' ht'
  obtain ⟨t, ht, rfl⟩ := List.mem_map.mp ht'
  exact h t ht

/-- The caught registration step either leaves the registry untouched or
appends exactly one entry. -/
theorem registerServerCaught_fst_shape (conns : Connections) (st : ServersInfo)
    (db : DB) (name : String) (now : Nat) :
    (registerServerCaught conns st db name now).1 = st ∨
    ∃ e, (registerServerCaught conns st db name now).1 = st ++ [e] := by
  unfold registerServerCaught registerServer
  by_cases h1 : (st.lookup name).isSome = true
  · rw [if_pos h1]
    exact Or.inl rfl
  · rw [if_neg h1]
    cases hc : conns.lookup name with
    | none => exact Or.inl rfl
    | some client =>
      cases hf : fetchServerTools client with
      | error e =>
        dsimp only
        rw [hf]
        exact Or.inl rfl
      | ok tools =>
        dsimp only
        rw [hf]
        exact Or.inr ⟨_, rfl⟩

theorem regFold_lookup_isSome_mono (conns : Connections) (now : Nat) :
    ∀ (cs : List (String × Client)) (st : ServersInfo) (db : DB) (k : String),
    (st.lookup k).isSome = true →
    (((cs.foldl (regStep conns now) (st, db)).1).lookup k).isSome = true := by
  intro cs
  induction cs with
  | nil => intro st db k h; exact h
  | cons c cs ih =>
    intro st db k h
    rw [List.foldl_cons]
    rw [show regStep conns now (st, db) c
        = ((regStep conns now (st, db) c).1, (regStep conns now (st, db) c).2)
        from Prod.mk.eta.symm]
    apply ih
    rcases registerServerCaught_fst_shape conns st db c.1 now with hs | ⟨e, hs⟩
    · show ((registerServerCaught conns st db c.1 now).1.lookup k).isSome = true
      rw [hs]
      exact h
    · show ((registerServerCaught conns st db c.1 now).1.lookup k).isSome = true
      rw [hs]
      exact lookup_append_isSome_mono st [e] k h

/-- Registration success depends only on the registry's key set, so two runs
over the same connections register the same key sequence. -/
theorem regStep_keys (conns : Connections) (name : String) (now now' : Nat)
    (st st' : ServersInfo) (db db' : DB)
    (hk : st.map Prod.fst = st'.map Prod.fst) :
    (registerServerCaught conns st db name now).1.map Prod.fst =
      (registerServerCaught conns st' db' name now').1.map Prod.fst := by
  unfold registerServerCaught registerServer
  have hiso : (st.lookup name).isSome = (st'.lookup name).isSome := by
    by_cases hm : name ∈ st.map Prod.fst
    · rw [(lookup_isSome_iff_mem_keys st name).mpr hm,
        (lookup_isSome_iff_mem_keys st' name).mpr (hk ▸ hm)]
    · have h1 : (st.lookup name).isSome = false := by
        rw [Bool.eq_false_iff]
        intro hc
        exact hm ((lookup_isSome_iff_mem_keys st name).mp hc)
      have h2 : (st'.lookup name).isSome = false := by
        rw [Bool.eq_false_iff]
        intro hc
        exact hm (hk ▸ (lookup_isSome_iff_mem_keys st' name).mp hc)
      rw [h1, h2]
  by_cases h1 : (st.lookup name).isSome = true
  · rw [if_pos h1, if_pos (hiso ▸ h1)]
    exact hk
  · rw [if_neg h1, if_neg (fun hc => h1 (hiso.trans hc))]
    cases hc : conns.lookup name with
    | none => exact hk
    | some client =>
      cases hf : fetchServerTools client with
      | error e =>
        dsimp only
        rw [hf]
        exact hk
      | ok tools =>
        dsimp only
        rw [hf]
        show (st ++ [_]).map Prod.fst = (st' ++ [_]).map Prod.fst
        rw [List.map_append, List.map_append, hk]
        rfl

theorem regFold_keys (conns : Connections) :
    ∀ (cs : List (String × Client)) (st st' : ServersInfo) (db db' : DB)
      (now now' : Nat), st.map Prod.fst = st'.map Prod.fst →
    ((cs.foldl (regStep conns now) (st, db)).1).map Prod.fst =
      ((cs.foldl (regStep conns now') (st', db')).1).map Prod.fst := by
  intro cs
  induction cs with
  | nil => intro st st' db db' now now' hk; exact hk
  | cons c cs ih =>
    intro st st' db db' now now' hk
    rw [List.foldl_cons, List.foldl_cons]
    rw [show regStep conns now (st, db) c
        = ((regStep conns now (st, db) c).1, (regStep conns now (st, db) c).2)
        from Prod.mk.eta.symm]
    rw [show regStep conns now' (st', db') c
        = ((regStep conns now' (st', db') c).1, (regStep conns now' (st', db') c).2)
        from Prod.mk.eta.symm]
    exact ih _ _ _ _ now now' (regStep_keys conns c.1 now now' st st' db db' hk)

theorem cleanup_id_of_registered (st : ServersInfo) (db : DB)
    (h : ∀ r ∈ db, (st.lookup r.serverName).isSome = true) :
    cleanupOrphanedServers st db = db := by
  unfold cleanupOrphanedServers
  apply foldl_if_id
  intro n hn
  unfold ToolDatabase.getAllServerNames at hn
  rw [List.mem_dedup] at hn
  obtain ⟨r, hr, rfl⟩ := List.mem_map.mp hn
  exact h r hr

theorem regStep_err_listing (conns : Connections) (st : ServersInfo) (db : DB)
    (name : String) (cl : Client) (now : Nat) (e : String)
    (hst : st.lookup name = none) (hc : conns.lookup name = some cl)
    (hf : cl.listToolsResult = .error e) :
    regStep conns now (st, db) (name, cl) = (st, db) := by
  show registerServerCaught conns st db name now = (st, db)
  unfold registerServerCaught registerServer
  rw [if_neg (by simp [hst]), hc]
  dsimp only
  rw [fetchServerTools_err cl e hf]

theorem regStep_ok_listing (conns : Connections) (st : ServersInfo) (db : DB)
    (name : String) (cl : Client) (now : Nat) (ts : List Tool)
    (hst : st.lookup name = none) (hc : conns.lookup name = some cl)
    (hf : cl.listToolsResult = .ok ts) :
    regStep conns now (st, db) (name, cl) =
      (st ++ [(name,
        { name := name, client := cl,
          tools := (syncToolsToDatabase db name
            (ts.map fun t => { t with title := some (convertToolName t.name) })
            now).2 })],
       (syncToolsToDatabase db name
         (ts.map fun t => { t with title := some (convertToolName t.name) })
         now).1) := by
  show registerServerCaught conns st db name now = _
  unfold registerServerCaught registerServer
  rw [if_neg (by simp [hst]), hc]
  dsimp only
  rw [fetchServerTools_ok cl ts hf]

/-- The first registration pass, run on fresh keys, establishes the registry
invariant and registers every server whose tool listing succeeds. -/
theorem regFold_establishes (conns : Connections) (now : Nat) :
    ∀ (cs : List (String × Client)) (st : ServersInfo) (db : DB),
    (∀ p ∈ cs, conns.lookup p.1 = some p.2) →
    ((cs.map Prod.fst).Nodup) →
    (∀ p ∈ cs, st.lookup p.1 = none) →
    (∀ p ∈ cs, ∀ ts, (p.2 : Client).listToolsResult = .ok ts →
      (ts.map (·.name)).Nodup ∧ ∀ t ∈ ts, t.outputSchema ≠ some "") →
    RegINV conns st db →
    RegINV conns (cs.foldl (regStep conns now) (st, db)).1
      (cs.foldl (regStep conns now) (st, db)).2 ∧
    (∀ p ∈ cs, ∀ ts, (p.2 : Client).listToolsResult = .ok ts →
      (((cs.foldl (regStep conns now) (st, db)).1).lookup p.1).isSome = true) := by
  intro cs
  induction cs with
  | nil =>
    intro st db _ _ _ _ hINV
    exact ⟨hINV, by intro p hp; simp at hp⟩
  | cons c cs ih =>
    intro st db hlk hnodup hunseen htools hINV
    obtain ⟨name, cl⟩ := c
    rw [List.foldl_cons]
    have hstlookup : st.lookup name = none :=
      hunseen (name, cl) (List.mem_cons_self _ _)
    have hconns : conns.lookup name = some cl :=
      hlk (name, cl) (List.mem_cons_self _ _)
    have hnametail : name ∉ cs.map Prod.fst :=
      (List.nodup_cons.mp (by simpa using hnodup)).1
    have hnodtail : (cs.map Prod.fst).Nodup :=
      (List.nodup_cons.mp (by simpa using hnodup)).2
    cases hf : cl.listToolsResult with
    | error e =>
      rw [regStep_err_listing conns st db name cl now e hstlookup hconns hf]
      obtain ⟨hA, hB⟩ := ih st db
        (fun p hp => hlk p (List.mem_cons_of_mem _ hp)) hnodtail
        (fun p hp => hunseen p (List.mem_cons_of_mem _ hp))
        (fun p hp => htools p (List.mem_cons_of_mem _ hp)) hINV
      refine ⟨hA, ?_⟩
      intro p hp ts hts
      rcases List.mem_cons.mp hp with rfl | hp
      · rw [hf] at hts
        exact Except.noConfusion hts
      · exact hB p hp ts hts
    | ok ts0 =>
      obtain ⟨hnod0, hne0⟩ := htools (name, cl) (List.mem_cons_self _ _) ts0 hf
      rw [regStep_ok_listing conns st db name cl now ts0 hstlookup hconns hf]
      have hINVn : RegINV conns
          (st ++ [(name,
            { name := name, client := cl,
              tools := (syncToolsToDatabase db name
                (ts0.map fun t => { t with title := some (convertToolName t.name) })
                now).2 })])
          (syncToolsToDatabase db name
            (ts0.map fun t => { t with title := some (convertToolName t.name) })
            now).1 := by
        intro q hq
        rcases List.mem_append.mp hq with hq | hq
        · obtain ⟨hc1, ts1, hts1, hS1⟩ := hINV q hq
          have hqname : q.1 ≠ name := by
            intro heq
            have hmem : (st.lookup q.1).isSome = true :=
              lookup_isSome_of_mem (show (q.1, q.2) ∈ st by simpa using hq)
            rw [heq, hstlookup] at hmem
            simp at hmem
          exact ⟨hc1, ts1, hts1, serverSynced_pres_sync name _ now hqname hS1⟩
        · rw [List.mem_singleton] at hq
          rw [hq]
          refine ⟨hconns, ts0, hf, ?_⟩
          exact sync_establishes db name _ now
            (conv_names_nodup ts0 hnod0) (conv_schema_ne ts0 hne0)
      have hunseenn : ∀ (info : ServerInfo), ∀ p ∈ cs,
          (st ++ [(name, info)]).lookup p.1 = none := by
        intro info p hp
        rw [VectorStoreImpl.lookup_append_single_ne st name info p.1
          (fun heq => hnametail (List.mem_map.mpr ⟨p, hp, heq⟩))]
        exact hunseen p (List.mem_cons_of_mem _ hp)
      obtain ⟨hA, hB⟩ := ih _ _
        (fun p hp => hlk p (List.mem_cons_of_mem _ hp)) hnodtail (hunseenn _)
        (fun p hp => htools p (List.mem_cons_of_mem _ hp)) hINVn
      refine ⟨hA, ?_⟩
      intro p hp ts hts
      rcases List.mem_cons.mp hp with rfl | hp
      · apply regFold_lookup_isSome_mono conns now cs _ _ name
        rw [VectorStoreImpl.lookup_append_single_self st name _ hstlookup]
        rfl
      · exact hB p hp ts hts

/-- A second registration pass over connections whose servers are already
synced (per the registry invariant from the first pass) changes database rows
only in their timestamps. -/
theorem regFold_idem (conns : Connections) (now2 : Nat) (st1 : ServersInfo)
    (db1 : DB) (hINV1 : RegINV conns st1 db1) :
    ∀ (cs : List (String × Client)) (st2 : ServersInfo) (D : DB),
    (∀ p ∈ cs, conns.lookup p.1 = some p.2) →
    ((cs.map Prod.fst).Nodup) →
    (∀ p ∈ cs, st2.lookup p.1 = none) →
    (∀ p ∈ cs, ∀ ts, (p.2 : Client).listToolsResult = .ok ts →
      (st1.lookup p.1).isSome = true) →
    D.map stripTime = db1.map stripTime →
    ((cs.foldl (regStep conns now2) (st2, D)).2).map stripTime =
      db1.map stripTime := by
  intro cs
  induction cs with
  | nil => intro st2 D _ _ _ _ hm; exact hm
  | cons c cs ih =>
    intro st2 D hlk hnodup hunseen hreg hm
    obtain ⟨name, cl⟩ := c
    rw [List.foldl_cons]
    have hstlookup : st2.lookup name = none :=
      hunseen (name, cl) (List.mem_cons_self _ _)
    have hconns : conns.lookup name = some cl :=
      hlk (name, cl) (List.mem_cons_self _ _)
    have hnametail : name ∉ cs.map Prod.fst :=
      (List.nodup_cons.mp (by simpa using hnodup)).1
    have hnodtail : (cs.map Prod.fst).Nodup :=
      (List.nodup_cons.mp (by simpa using hnodup)).2
    cases hf : cl.listToolsResult with
    | error e =>
      rw [regStep_err_listing conns st2 D name cl now2 e hstlookup hconns hf]
      exact ih st2 D (fun p hp => hlk p (List.mem_cons_of_mem _ hp)) hnodtail
        (fun p hp => hunseen p (List.mem_cons_of_mem _ hp))
        (fun p hp => hreg p (List.mem_cons_of_mem _ hp)) hm
    | ok ts0 =>
      rw [regStep_ok_listing conns st2 D name cl now2 ts0 hstlookup hconns hf]
      have hsucc : (st1.lookup name).isSome = true :=
        hreg (name, cl) (List.mem_cons_self _ _) ts0 hf
      cases hlo : st1.lookup name with
      | none => rw [hlo] at hsucc; simp at hsucc
      | some info =>
        have hmemst1 : (name, info) ∈ st1 := lookup_mem hlo
        obtain ⟨hc1, ts1, hts1, hS1⟩ := hINV1 (name, info) hmemst1
        dsimp only at hc1 hts1
        have hcl : info.client = cl :=
          (Option.some.inj (hconns.symm.trans hc1)).symm
        rw [hcl] at hts1
        have hts10 : ts1 = ts0 := by
          rw [hf] at hts1
          exact (Except.ok.inj hts1).symm
        rw [hts10] at hS1
        have hm2 := sync_idem_modTime name
          (ts0.map fun t => { t with title := some (convertToolName t.name) })
          now2 db1 hS1 D hm
        have hunseenn : ∀ (info : ServerInfo), ∀ p ∈ cs,
            (st2 ++ [(name, info)]).lookup p.1 = none := by
          intro info p hp
          rw [VectorStoreImpl.lookup_append_single_ne st2 name info p.1
            (fun heq => hnametail (List.mem_map.mpr ⟨p, hp, heq⟩))]
          exact hunseen p (List.mem_cons_of_mem _ hp)
        exact ih _ _ (fun p hp => hlk p (List.mem_cons_of_mem _ hp)) hnodtail
          (hunseenn _) (fun p hp => hreg p (List.mem_cons_of_mem _ hp)) hm2

/-- Rows transfer along a `stripTime`-image equality: every row of `D` has a
row of `db1` with the same timestamp-stripped content (hence server name). -/
theorem mem_stripTime_transfer {D db1 : DB}
    (hm : D.map stripTime = db1.map stripTime) (r : StoredTool) (hr : r ∈ D) :
    ∃ q ∈ db1, stripTime q = stripTime r := by
  have : stripTime r ∈ db1.map stripTime := by
    rw [← hm]
    exact List.mem_map.mpr ⟨r, hr, rfl⟩
  obtain ⟨q, hq, hqe⟩ := List.mem_map.mp this
  exact ⟨q, hq, hqe⟩

/-- Core of the idempotence argument: a registration pass into an empty
registry, run against a database whose rows a previous pass synced (invariant
`RegINV`) and registered (`hB1`), returns that database up to timestamps. -/
theorem registerAllServers_idem_core (conns : Connections) (t2 : Nat)
    (st1 : ServersInfo) (db1 : DB)
    (hlkc : ∀ p ∈ conns, conns.lookup p.1 = some p.2)
    (hconn : (conns.map Prod.fst).Nodup)
    (hINV1 : RegINV conns st1 db1)
    (hB1 : ∀ p ∈ conns, ∀ ts, (p.2 : Client).listToolsResult = .ok ts →
      (st1.lookup p.1).isSome = true)
    (hdb1reg : ∀ r ∈ db1, (st1.lookup r.serverName).isSome = true)
    (hkeys : st1.map Prod.fst =
      ((conns.foldl (regStep conns t2) (([] : ServersInfo), db1)).1).map Prod.fst) :
    ((registerAllServers conns [] db1 t2).2).map stripTime =
      db1.map stripTime := by
  rw [registerAllServers_regStep]
  dsimp only
  have hidem := regFold_idem conns t2 st1 db1 hINV1 conns [] db1 hlkc hconn
    (fun p _ => rfl) hB1 rfl
  have hregall : ∀ r ∈ (conns.foldl (regStep conns t2) (([] : ServersInfo), db1)).2,
      (((conns.foldl (regStep conns t2) (([] : ServersInfo), db1)).1).lookup
        r.serverName).isSome = true := by
    intro r hr
    obtain ⟨q, hq, hqe⟩ := mem_stripTime_transfer hidem r hr
    have hqs : q.serverName = r.serverName := (stripTime_eq_fields hqe).1
    rw [lookup_isSome_iff_mem_keys, ← hkeys, ← hqs]
    exact (lookup_isSome_iff_mem_keys st1 q.serverName).mp (hdb1reg q hq)
  rw [cleanup_id_of_registered _ _ hregall]
  exact hidem

/-- Re-running `registerAllServers` from a fresh registry over the same
connections advertising the same tools reproduces the database of the first
run up to timestamps. -/
theorem registerAllServers_idem_aux (conns : Connections) (db0 : DB)
    (t1 t2 : Nat) (hconn : (conns.map Prod.fst).Nodup)
    (htools : ∀ p ∈ conns, ∀ ts, (p.2 : Client).listToolsResult = .ok ts →
      (ts.map (·.name)).Nodup ∧ ∀ t ∈ ts, t.outputSchema ≠ some "") :
    ((registerAllServers conns []
        (registerAllServers conns [] db0 t1).2 t2).2).map stripTime =
      ((registerAllServers conns [] db0 t1).2).map stripTime := by
  have hlkc : ∀ p ∈ conns, conns.lookup p.1 = some p.2 := fun p hp =>
    lookup_eq_of_mem_nodup hconn (by simpa using hp)
  have hINV0 : RegINV conns [] db0 := fun q hq => absurd hq (List.not_mem_nil q)
  obtain ⟨hINV1f, hB1⟩ := regFold_establishes conns t1 conns [] db0 hlkc hconn
    (fun p _ => rfl) htools hINV0
  have h1 : (registerAllServers conns [] db0 t1).1 =
      (conns.foldl (regStep conns t1) (([] : ServersInfo), db0)).1 := rfl
  have h2 : (registerAllServers conns [] db0 t1).2 =
      cleanupOrphanedServers
        (conns.foldl (regStep conns t1) (([] : ServersInfo), db0)).1
        (conns.foldl (regStep conns t1) (([] : ServersInfo), db0)).2 := rfl
  refine registerAllServers_idem_core conns t2
    (registerAllServers conns [] db0 t1).1 (registerAllServers conns [] db0 t1).2
    hlkc hconn ?_ ?_ ?_ ?_
  · intro q hq
    rw [h1] at hq
    obtain ⟨hc, ts, hts, hS⟩ := hINV1f q hq
    refine ⟨hc, ts, hts, ?_⟩
    rw [h2]
    exact serverSynced_pres_cleanup _
      (lookup_isSome_of_mem (show (q.1, q.2) ∈ _ by simpa using hq)) hS
  · intro p hp ts hts
    rw [h1]
    exact hB1 p hp ts hts
  · intro r hr
    rw [h2] at hr
    rw [h1]
    exact cleanup_registered _ _ r hr
  · rw [h1]
    exact regFold_keys conns conns [] []
      db0 (registerAllServers conns [] db0 t1).2 t1 t2 rfl

end ServerRegistryService

/-! ### Claim theorems -/

/-- C6: the derived display name equals the raw name with every hyphen
replaced by an underscore — the length is preserved, a hyphen at any position
becomes an underscore, any other character is unchanged — and the display name
equals the raw name exactly when the raw name contains no hyphen. -/
theorem convertToolName_spec (s : String) :
    (convertToolName s).data.length = s.data.length ∧
    (∀ i (hi : i < s.data.length) (hi' : i < (convertToolName s).data.length),
      (s.data.get ⟨i, hi⟩ = '-' → (convertToolName s).data.get ⟨i, hi'⟩ = '_') ∧
      (s.data.get ⟨i, hi⟩ ≠ '-' →
        (convertToolName s).data.get ⟨i, hi'⟩ = s.data.get ⟨i, hi⟩)) ∧
    (convertToolName s = s ↔ ∀ c ∈ s.data, c ≠ '-') := by
  refine ⟨by simp [convertToolName_data], ?_, ?_⟩
  · intro i hi hi'
    have hc : (convertToolName s).data.get ⟨i, hi'⟩
        = if s.data.get ⟨i, hi⟩ = '-' then '_' else s.data.get ⟨i, hi⟩ := by
      simp [convertToolName_data, List.get_eq_getElem, List.getElem_map]
    constructor
    · intro h; rw [hc, if_pos h]
    · intro h; rw [hc, if_neg h]
  · constructor
    · intro h c hc hcontra
      have hdata : s.data.map (fun c => if c = '-' then '_' else c) = s.data := by
        rw [← convertToolName_data, h]
      have := list_map_eq_self hdata c hc
      rw [hcontra] at this
      simp at this
    · intro h
      have hdata : s.data.map (fun c => if c = '-' then '_' else c) = s.data := by
        have := List.map_congr_left
          (f := fun c => if c = '-' then '_' else c) (g := id)
          (l := s.data) (fun c hc => by simp [h c hc])
        rw [this, List.map_id]
      show String.mk (s.data.map _) = s
      rw [hdata]

/-- Witness for C6 at the concrete raw names "a-b" and "ab". -/
theorem convertToolName_spec_witness :
    (convertToolName "a-b").data.length = ("a-b" : String).data.length ∧
    (convertToolName "a-b").data.get ⟨1, by decide⟩ = '_' ∧
    (convertToolName "a-b").data.get ⟨0, by decide⟩ = ("a-b" : String).data.get ⟨0, by decide⟩ ∧
    convertToolName "ab" = "ab" := by
  have h := convertToolName_spec "a-b"
  have h2 := convertToolName_spec "ab"
  exact ⟨h.1, (h.2.1 1 (by decide) (by decide)).1 (by decide),
    (h.2.1 0 (by decide) (by decide)).2 (by decide),
    h2.2.2.mpr (by decide)⟩

/-- C10: the registry lookup `getTool(serverName, toolName)` throws exactly
when the server is not registered, and returns undefined (without throwing)
exactly when the server is registered but has no tool with that raw name. -/
theorem registry_getTool_spec (st : ServersInfo) (sn tn : String) :
    ((∃ e, ServerRegistryService.getTool st sn tn = .error e) ↔
      st.lookup sn = none) ∧
    (ServerRegistryService.getTool st sn tn = .ok none ↔
      ∃ info, st.lookup sn = some info ∧ ∀ t ∈ info.tools, t.name ≠ tn) := by
  unfold ServerRegistryService.getTool
  cases h : st.lookup sn with
  | none => simp
  | some info =>
    simp only [h, Option.some.injEq]
    constructor
    · constructor
      · rintro ⟨e, he⟩
        exact absurd he (by simp)
      · intro hc
        exact absurd hc (by simp)
    · constructor
      · intro hnone
        refine ⟨info, rfl, ?_⟩
        simp only [Except.ok.injEq] at hnone
        intro t ht
        have := List.find?_eq_none.mp hnone t ht
        simpa using this
      · rintro ⟨info', hinfo', hnone⟩
        obtain rfl : info = info' := hinfo'.symm ▸ rfl
        have : info.tools.find? (fun t => t.name == tn) = none := by
          apply List.find?_eq_none.mpr
          intro t ht
          simpa using hnone t ht
        simp [this]

/-- Witness for C10: a registry with server "a" holding tool "t"; lookups of a
missing server, a missing tool, and a present tool. -/
theorem registry_getTool_spec_witness :
    (∃ e, ServerRegistryService.getTool
      [("a", { name := "a", client := {}, tools := [{ name := "t" }] })] "b" "t" = .error e) ∧
    ServerRegistryService.getTool
      [("a", { name := "a", client := {}, tools := [{ name := "t" }] })] "a" "u" = .ok none := by
  constructor
  · exact (registry_getTool_spec
      [("a", { name := "a", client := {}, tools := [{ name := "t" }] })] "b" "t").1.mpr
      (by decide)
  · exact (registry_getTool_spec
      [("a", { name := "a", client := {}, tools := [{ name := "t" }] })] "a" "u").2.mpr
      ⟨_, rfl, by decide⟩

/-- C5: a failure inside the composition code — a thrown error, a rejected
asynchronous result, or a failing tool-binding call — is caught by the
`run_functions_code` handler and returned as a text payload describing the
error.  The handler is a total function into `ToolResponse`, so no failure
propagates out of it as an uncaught host exception. -/
theorem runFunctionsCode_catches {α : Type _} (stringify : α → String)
    (c : String) (f : Facade.SandboxFailure) :
    Facade.runFunctionsCode stringify (some c) (.error f) =
      { content := [{ kind := "text",
                      text := "Error executing code: " ++ Facade.failureMessage f }] } ∧
    Facade.sandboxExecute (α := α) (.error f) = .error f := by
  exact ⟨rfl, rfl⟩

/-- C1: one iteration of the per-server sync for an advertised tool.  If no
record is stored under (serverName, toolName), a record is inserted carrying
the live output schema when present, with the original flag set exactly when
that schema is present.  If a record exists and the live tool carries a
schema, the stored schema is overwritten with the live one and marked
original.  If a record exists and the live tool carries no schema, the stored
schema is copied onto the live in-memory descriptor and the database is left
untouched.  (A serialized schema is never the empty string, hence the
non-emptiness hypotheses.) -/
theorem syncToolStep_spec (db : DB) (sn : String) (now : Nat)
    (acc : List Tool) (t : Tool) :
    (ToolDatabase.getTool db sn t.name = none → t.outputSchema ≠ some "" →
      ToolDatabase.getTool (ServerRegistryService.syncToolStep sn now (db, acc) t).1 sn t.name =
        some { serverName := sn, toolName := t.name,
               outputSchema := t.outputSchema.map JSONStringify,
               originalOutputSchema := t.outputSchema.isSome,
               lastUpdated := now } ∧
      (ServerRegistryService.syncToolStep sn now (db, acc) t).2 = acc ++ [t]) ∧
    (∀ r s, ToolDatabase.getTool db sn t.name = some r → t.outputSchema = some s →
      s ≠ "" →
      ToolDatabase.getTool (ServerRegistryService.syncToolStep sn now (db, acc) t).1 sn t.name =
        some { serverName := sn, toolName := t.name,
               outputSchema := some (JSONStringify s),
               originalOutputSchema := true, lastUpdated := now } ∧
      (ServerRegistryService.syncToolStep sn now (db, acc) t).2 = acc ++ [t]) ∧
    (∀ r, ToolDatabase.getTool db sn t.name = some r → t.outputSchema = none →
      (ServerRegistryService.syncToolStep sn now (db, acc) t).1 = db ∧
      (ServerRegistryService.syncToolStep sn now (db, acc) t).2 =
        acc ++ [{ t with outputSchema := r.outputSchema.map JSONParse }]) := by
  refine ⟨?_, ?_, ?_⟩
  · intro h hne
    have hstep : ServerRegistryService.syncToolStep sn now (db, acc) t =
        (ToolDatabase.saveTool db
          { serverName := sn, toolName := t.name,
            outputSchema := t.outputSchema.map JSONStringify,
            originalOutputSchema := t.outputSchema.isSome,
            lastUpdated := now }, acc ++ [t]) := by
      unfold ServerRegistryService.syncToolStep
      rw [show ToolDatabase.getTool (db, acc).1 sn t.name = none from h]
    rw [hstep]
    refine ⟨?_, rfl⟩
    have hfind : db.find? (ToolDatabase.keyMatch sn t.name) = none := by
      unfold ToolDatabase.getTool at h
      exact Option.map_eq_none'.mp h
    have := @ToolDatabase.getTool_saveTool_new db
      { serverName := sn, toolName := t.name,
        outputSchema := t.outputSchema.map JSONStringify,
        originalOutputSchema := t.outputSchema.isSome,
        lastUpdated := now } hfind
    rw [this]
    congr 1
    cases hs : t.outputSchema with
    | none => rfl
    | some s =>
      have : s ≠ "" := fun hc => hne (by rw [hs, hc])
      simp [jsStrOrNull, JSONStringify, this]
  · intro r s h hs hne
    have hstep : ServerRegistryService.syncToolStep sn now (db, acc) t =
        (ToolDatabase.updateTool db sn t.name (JSONStringify s) true now,
         acc ++ [t]) := by
      unfold ServerRegistryService.syncToolStep
      rw [show ToolDatabase.getTool (db, acc).1 sn t.name = some r from h, hs]
    rw [hstep]
    refine ⟨?_, rfl⟩
    obtain ⟨r0, hr0, _⟩ := Option.map_eq_some'.mp h
    rw [ToolDatabase.getTool_updateTool_self hr0 (JSONStringify s) true now]
    have : JSONStringify s ≠ "" := hne
    simp [jsStrOrNull, this]
  · intro r h hnone
    have hstep : ServerRegistryService.syncToolStep sn now (db, acc) t =
        (db, acc ++ [{ t with outputSchema := r.outputSchema.map JSONParse }]) := by
      unfold ServerRegistryService.syncToolStep
      rw [show ToolDatabase.getTool (db, acc).1 sn t.name = some r from h, hnone]
    rw [hstep]
    exact ⟨rfl, rfl⟩

/-- Witness for C1: a fresh insert of a tool with a schema, an overwrite of a
stored schema by a live one, and a heal of a schemaless live tool from the
store. -/
theorem syncToolStep_spec_witness :
    (ToolDatabase.getTool
      (ServerRegistryService.syncToolStep "s" 7 ([], []) { name := "t", outputSchema := some "A" }).1
      "s" "t" = some { serverName := "s", toolName := "t", outputSchema := some "A",
                       originalOutputSchema := true, lastUpdated := 7 }) ∧
    (ToolDatabase.getTool
      (ServerRegistryService.syncToolStep "s" 7
        ([{ serverName := "s", toolName := "t", outputSchema := some "X",
            originalOutputSchema := false, lastUpdated := 3 }], [])
        { name := "t", outputSchema := some "B" }).1
      "s" "t" = some { serverName := "s", toolName := "t", outputSchema := some "B",
                       originalOutputSchema := true, lastUpdated := 7 }) ∧
    ((ServerRegistryService.syncToolStep "s" 7
        ([{ serverName := "s", toolName := "t", outputSchema := some "X",
            originalOutputSchema := true, lastUpdated := 3 }], [])
        { name := "t" }).1 =
      [{ serverName := "s", toolName := "t", outputSchema := some "X",
         originalOutputSchema := true, lastUpdated := 3 }] ∧
     (ServerRegistryService.syncToolStep "s" 7
        ([{ serverName := "s", toolName := "t", outputSchema := some "X",
            originalOutputSchema := true, lastUpdated := 3 }], [])
        { name := "t" }).2 = [{ name := "t", outputSchema := some "X" }]) := by
  refine ⟨?_, ?_, ?_⟩
  · exact ((syncToolStep_spec [] "s" 7 [] { name := "t", outputSchema := some "A" }).1
      (by decide) (by decide)).1
  · exact ((syncToolStep_spec
      [{ serverName := "s", toolName := "t", outputSchema := some "X",
         originalOutputSchema := false, lastUpdated := 3 }] "s" 7 []
      { name := "t", outputSchema := some "B" }).2.1
      { serverName := "s", toolName := "t", outputSchema := some "X",
        originalOutputSchema := false, lastUpdated := 3 } "B"
      (by decide) rfl (by decide)).1
  · exact (syncToolStep_spec
      [{ serverName := "s", toolName := "t", outputSchema := some "X",
         originalOutputSchema := true, lastUpdated := 3 }] "s" 7 []
      { name := "t" }).2.2
      { serverName := "s", toolName := "t", outputSchema := some "X",
        originalOutputSchema := true, lastUpdated := 3 }
      (by decide) rfl

/-- C4: `registerServer(name)` fails when the name is already registered or
when no connection exists for it, leaving the registry map unchanged (the
`.catch`-wrapped step returns the input state); when neither holds and the
server's `listTools()` succeeds, a `ServerInfo` for that name is stored whose
tools are the listed tools with the derived display title on each. -/
theorem registerServer_spec (conns : Connections) (st : ServersInfo) (db : DB)
    (name : String) (now : Nat) :
    ((st.lookup name).isSome →
      (∃ e, ServerRegistryService.registerServer conns st db name now = .error e) ∧
      ServerRegistryService.registerServerCaught conns st db name now = (st, db)) ∧
    (st.lookup name = none → conns.lookup name = none →
      (∃ e, ServerRegistryService.registerServer conns st db name now = .error e) ∧
      ServerRegistryService.registerServerCaught conns st db name now = (st, db)) ∧
    (∀ client ts, st.lookup name = none → conns.lookup name = some client →
      client.listToolsResult = .ok ts →
      ∃ info db', ServerRegistryService.registerServer conns st db name now =
          .ok (st ++ [(name, info)], db') ∧
        info.name = name ∧ info.client = client ∧
        info.tools.map (fun t => (t.name, t.title)) =
          ts.map (fun t => (t.name, some (convertToolName t.name)))) := by
  refine ⟨?_, ?_, ?_⟩
  · intro h
    have he : ServerRegistryService.registerServer conns st db name now =
        .error ("Server \x27" ++ name ++ "\x27 is already registered") := by
      unfold ServerRegistryService.registerServer
      rw [if_pos h]
    exact ⟨⟨_, he⟩, by unfold ServerRegistryService.registerServerCaught; rw [he]⟩
  · intro h hc
    have he : ServerRegistryService.registerServer conns st db name now =
        .error ("Connection for server \x27" ++ name ++ "\x27 not found") := by
      unfold ServerRegistryService.registerServer
      rw [if_neg (by simp [h]), hc]
    exact ⟨⟨_, he⟩, by unfold ServerRegistryService.registerServerCaught; rw [he]⟩
  · intro client ts h hc hls
    have hfetch : ServerRegistryService.fetchServerTools client =
        .ok (ts.map fun t => { t with title := some (convertToolName t.name) }) := by
      unfold ServerRegistryService.fetchServerTools
      rw [hls]
      rfl
    have hok : ServerRegistryService.registerServer conns st db name now =
        .ok (st ++ [(name,
          { name := name, client := client,
            tools := (ServerRegistryService.syncToolsToDatabase db name
              (ts.map fun t => { t with title := some (convertToolName t.name) }) now).2 })],
          (ServerRegistryService.syncToolsToDatabase db name
            (ts.map fun t => { t with title := some (convertToolName t.name) }) now).1) := by
      unfold ServerRegistryService.registerServer
      rw [if_neg (by simp [h])]
      simp only [hc, hfetch]
    refine ⟨_, _, hok, rfl, rfl, ?_⟩
    rw [ServerRegistryService.syncToolsToDatabase_snd_shape]
    rw [List.map_map]
    rfl

/-- Witness for C4: a one-connection world exercising the duplicate-name
failure, the missing-connection failure, and a successful registration. -/
theorem registerServer_spec_witness :
    ((∃ e, ServerRegistryService.registerServer
        [("a", { listToolsResult := .ok [{ name := "x-y" }] })]
        [("a", { name := "a", client := {}, tools := [] })] [] "a" 5 = .error e) ∧
     ServerRegistryService.registerServerCaught
        [("a", { listToolsResult := .ok [{ name := "x-y" }] })]
        [("a", { name := "a", client := {}, tools := [] })] [] "a" 5 =
        ([("a", { name := "a", client := {}, tools := [] })], [])) ∧
    (∃ e, ServerRegistryService.registerServer
        [("a", { listToolsResult := .ok [{ name := "x-y" }] })] [] [] "b" 5 = .error e) ∧
    (∃ info db', ServerRegistryService.registerServer
        [("a", { listToolsResult := .ok [{ name := "x-y" }] })] [] [] "a" 5 =
          .ok ([] ++ [("a", info)], db') ∧
      info.name = "a" ∧
      info.client = { listToolsResult := .ok [{ name := "x-y" }] } ∧
      info.tools.map (fun t => (t.name, t.title)) = [("x-y", some "x_y")]) := by
  refine ⟨?_, ?_, ?_⟩
  · exact (registerServer_spec
      [("a", { listToolsResult := .ok [{ name := "x-y" }] })]
      [("a", { name := "a", client := {}, tools := [] })] [] "a" 5).1 (by decide)
  · exact ((registerServer_spec
      [("a", { listToolsResult := .ok [{ name := "x-y" }] })] [] [] "b" 5).2.1
      (by decide) (by decide)).1
  · obtain ⟨info, db', hok, h1, h2, h3⟩ := (registerServer_spec
      [("a", { listToolsResult := .ok [{ name := "x-y" }] })] [] [] "a" 5).2.2
      { listToolsResult := .ok [{ name := "x-y" }] } [{ name := "x-y" }]
      (by decide) (by decide) rfl
    refine ⟨info, db', hok, h1, h2, ?_⟩
    rw [h3]
    decide

/-- C9 is refuted at a concrete input: for a server named "!a" with usage
instructions and one tool "t", the sorted output places the instruction line
after the server's entry line ("!" sorts before "#"), so the instruction text
is not a prefix line for that server's entries. -/
theorem getServersOverview_prefix_counterexample :
    ToolsParserService.getServersOverviewLines
      [("!a", { name := "!a", client := { instructions := some "X" },
                tools := [{ name := "t", title := some "t" }] })] =
      ["!a/t", "# !a mcp server instructions: X"] := by decide

/-- C9 (amended): `listOverview` joins by newlines the lexicographically
sorted list of all lines, comprising exactly one "serverName/displayName"
entry per tool of every registered server plus one
"# serverName mcp server instructions: text" line per server with (non-empty)
instructions, followed by a fixed note; entry lines therefore appear in sorted
order, but instruction lines are sorted among all lines rather than guaranteed
to prefix their own server's entries. -/
theorem getServersOverview_amended (servers : ServersInfo) :
    List.Sorted (fun a b => strLe a b = true)
      (ToolsParserService.getServersOverviewLines servers) ∧
    (ToolsParserService.getServersOverviewLines servers).Perm
      (servers.flatMap ToolsParserService.serverLines) ∧
    ToolsParserService.getServersOverview servers =
      String.intercalate "\n" (ToolsParserService.getServersOverviewLines servers)
        ++ "\n\n" ++ ToolsParserService.SERVERS_OVERVIEW_NOTE := by
  refine ⟨?_, ?_, rfl⟩
  · exact List.sorted_insertionSort _ _
  · exact List.perm_insertionSort _ _

/-- C8 is refuted at a concrete input: with only server "a" registered (one
tool "t"), the well-formed path "b/t" names an unregistered server and makes
the whole batch fail, even though the accompanying path "a/t" resolves; the
same batch without "b/t" succeeds. -/
theorem getToolsOverview_counterexample :
    (ToolsParserService.getToolsOverviewRecords
      [("a", { name := "a", client := {}, tools := [{ name := "t", title := some "t" }] })]
      ["b/t", "a/t"]).isOk = false ∧
    (ToolsParserService.getToolsOverviewRecords
      [("a", { name := "a", client := {}, tools := [{ name := "t", title := some "t" }] })]
      ["a/t"]).isOk = true := by decide

/-- C8 (amended): for a batch of well-formed tool paths each naming a
registered server, the batch always succeeds; a path whose display name does
not resolve on its (registered) server is skipped with only a logged warning,
and every resolved path contributes a record whose `exampleUsage` literally
contains the path.  (A well-formed path naming an unregistered server, or a
malformed path, still throws and fails the whole batch.) -/
theorem getToolsOverview_amended (servers : ServersInfo) (paths : List String)
    (h : ∀ p ∈ paths, ∃ sn tn info, p = sn ++ "/" ++ tn ∧
      jsSplitSlash p = [sn, tn] ∧ servers.lookup sn = some info) :
    ∃ rs, ToolsParserService.getToolsOverviewRecords servers paths = .ok rs ∧
      rs.length = (paths.filter (ToolsParserService.pathResolves servers)).length ∧
      ∀ r ∈ rs, ∃ p ∈ paths, ∃ pre post, r.exampleUsage = pre ++ p ++ post := by
  induction paths with
  | nil => exact ⟨[], rfl, rfl, by simp⟩
  | cons p rest ih =>
    obtain ⟨sn, tn, info, hp, hsplit, hlook⟩ := h p (List.mem_cons_self p rest)
    obtain ⟨rs, hrs, hlen, hmem⟩ := ih (fun q hq => h q (List.mem_cons_of_mem _ hq))
    cases hfind : info.tools.find? (fun t => t.title == some tn) with
    | some tool =>
      have heq : ToolsParserService.getToolsOverviewRecords servers (p :: rest) =
          .ok (ToolsParserService.mkToolRecord sn tool :: rs) := by
        simp only [ToolsParserService.getToolsOverviewRecords, hsplit, hlook, hfind,
          hrs, Except.map]
      have hres : ToolsParserService.pathResolves servers p = true := by
        simp only [ToolsParserService.pathResolves, hsplit, hlook, hfind,
          Option.isSome_some]
      refine ⟨_, heq, ?_, ?_⟩
      · simp [List.filter_cons, hres, hlen]
      · intro r hr
        rcases List.mem_cons.mp hr with rfl | hr
        · refine ⟨p, List.mem_cons_self p rest, ?_⟩
          have htitle : tool.title = some tn := by
            have := List.find?_some hfind
            simpa using this
          refine ⟨"const " ++ tn ++ " = require(\x27./",
                  ".cjs\x27);\nmodule.exports = " ++ tn
                    ++ "(\x7b /* your parameters here */ \x7d);", ?_⟩
          simp only [ToolsParserService.mkToolRecord,
            ToolsParserService.exampleUsageFor, jsTemplate, htitle, hp]
          simp [String.append_assoc]
        · obtain ⟨q, hq, pre, post, hpp⟩ := hmem r hr
          exact ⟨q, List.mem_cons_of_mem _ hq, pre, post, hpp⟩
    | none =>
      have heq : ToolsParserService.getToolsOverviewRecords servers (p :: rest) =
          ToolsParserService.getToolsOverviewRecords servers rest := by
        simp only [ToolsParserService.getToolsOverviewRecords, hsplit, hlook, hfind]
      have hres : ToolsParserService.pathResolves servers p = false := by
        simp only [ToolsParserService.pathResolves, hsplit, hlook, hfind,
          Option.isSome_none]
      refine ⟨rs, heq ▸ hrs, ?_, ?_⟩
      · simp [List.filter_cons, hres, hlen]
      · intro r hr
        obtain ⟨q, hq, pre, post, hpp⟩ := hmem r hr
        exact ⟨q, List.mem_cons_of_mem _ hq, pre, post, hpp⟩

/-- Witness for the amended C8: one resolving path and one known-server path
with an unknown tool; the batch succeeds with exactly one record whose
`exampleUsage` contains the path "a/t". -/
theorem getToolsOverview_amended_witness :
    ∃ rs, ToolsParserService.getToolsOverviewRecords
      [("a", { name := "a", client := {}, tools := [{ name := "t", title := some "t" }] })]
      ["a/t", "a/u"] = .ok rs ∧
      rs.length = 1 ∧
      ∀ r ∈ rs, ∃ p ∈ ["a/t", "a/u"], ∃ pre post, r.exampleUsage = pre ++ p ++ post := by
  obtain ⟨rs, h1, h2, h3⟩ := getToolsOverview_amended
    [("a", { name := "a", client := {}, tools := [{ name := "t", title := some "t" }] })]
    ["a/t", "a/u"]
    (by
      intro p hp
      rcases List.mem_cons.mp hp with rfl | hp
      · exact ⟨"a", "t", _, by decide, by decide, rfl⟩
      · rcases List.mem_cons.mp hp with rfl | hp
        · exact ⟨"a", "u", _, by decide, by decide, rfl⟩
        · exact absurd hp (by simp))
  exact ⟨rs, h1, by rw [h2]; decide, h3⟩

/-- C2: after `registerAllServers` completes, every server name absent from
the registry map (the set of successfully registered servers) has no stored
tool records left; and within one server's sync, every stored tool name no
longer advertised has exactly its own record deleted — records of other
servers survive as-is, and records of still-advertised tools stay present. -/
theorem orphan_cleanup_spec (conns : Connections) (st : ServersInfo) (db : DB)
    (now : Nat) (s : String) (db0 : DB) (sn : String) (tools : List Tool) :
    ((ServerRegistryService.registerAllServers conns st db now).1.lookup s = none →
      ToolDatabase.getServerTools
        (ServerRegistryService.registerAllServers conns st db now).2 s = []) ∧
    (∀ r ∈ db0, r.serverName = sn → r.toolName ∉ tools.map (·.name) →
      ToolDatabase.getTool
        (ServerRegistryService.syncToolsToDatabase db0 sn tools now).1 sn r.toolName = none) ∧
    (∀ r ∈ db0, r.serverName ≠ sn →
      r ∈ (ServerRegistryService.syncToolsToDatabase db0 sn tools now).1) ∧
    (∀ n, n ∈ tools.map (·.name) → (ToolDatabase.getTool db0 sn n).isSome = true →
      (ToolDatabase.getTool
        (ServerRegistryService.syncToolsToDatabase db0 sn tools now).1 sn n).isSome = true) := by
  refine ⟨?_, ?_, ?_, ?_⟩
  · intro hnone
    rw [ServerRegistryService.registerAllServers_eq] at hnone ⊢
    unfold ToolDatabase.getServerTools
    have hfil : (ServerRegistryService.cleanupOrphanedServers
        (conns.foldl (fun acc c =>
          ServerRegistryService.registerServerCaught conns acc.1 acc.2 c.1 now) (st, db)).1
        (conns.foldl (fun acc c =>
          ServerRegistryService.registerServerCaught conns acc.1 acc.2 c.1 now) (st, db)).2).filter
        (fun r => r.serverName == s) = [] := by
      rw [List.filter_eq_nil_iff]
      intro r hr hrs
      have hreg := ServerRegistryService.cleanup_registered _ _ r hr
      have hrss : r.serverName = s := by simpa using hrs
      rw [hrss, hnone] at hreg
      exact Bool.noConfusion hreg
    rw [hfil]
    rfl
  · intro r hr hsn hnot
    rw [ServerRegistryService.syncToolsToDatabase_eq]
    have hnames : (tools.map (·.name)).contains r.toolName = false := by
      simpa using hnot
    have h1 : ToolDatabase.getTool
        (ServerRegistryService.orphanToolPhase db0 sn (tools.map (·.name)))
        sn r.toolName = none := by
      rw [ToolDatabase.getTool_eq_none_iff]
      intro q hq hk
      obtain ⟨hq1, hq2⟩ := (ToolDatabase.keyMatch_iff _ _ q).mp hk
      have hadv := ServerRegistryService.orphanToolPhase_advertised db0 sn _ q hq hq1
      rw [hq2, hnames] at hadv
      exact Bool.noConfusion hadv
    rw [ServerRegistryService.syncFold_getTool_ne sn now tools _ [] r.toolName
      (fun t ht hc => hnot (hc ▸ List.mem_map.mpr ⟨t, ht, rfl⟩))]
    exact h1
  · intro r hr hne
    rw [ServerRegistryService.syncToolsToDatabase_eq]
    exact ServerRegistryService.syncFold_mem_other sn now tools _ [] r
      (ServerRegistryService.orphanToolPhase_mem_other db0 sn _ r hr hne) hne
  · intro n hn hsome
    rw [ServerRegistryService.syncToolsToDatabase_eq]
    apply ServerRegistryService.syncFold_isSome
    apply ServerRegistryService.orphanToolPhase_isSome
    · simpa using hn
    · exact hsome

/-- Witness for C2: server "a" advertising tool "t"; a stale server "gone"
loses all its rows after `registerAllServers`; within a sync of server "s",
the no-longer-advertised tool "old" loses exactly its row, the foreign row of
server "z" survives, and the advertised tool "t" keeps a row. -/
theorem orphan_cleanup_spec_witness :
    ToolDatabase.getServerTools
      (ServerRegistryService.registerAllServers
        [("a", { listToolsResult := .ok [{ name := "t" }] })] []
        [{ serverName := "gone", toolName := "x", outputSchema := none,
           originalOutputSchema := false, lastUpdated := 1 }] 9).2 "gone" = [] ∧
    ToolDatabase.getTool
      (ServerRegistryService.syncToolsToDatabase
        [{ serverName := "s", toolName := "old", outputSchema := none,
           originalOutputSchema := false, lastUpdated := 1 },
         { serverName := "z", toolName := "k", outputSchema := none,
           originalOutputSchema := false, lastUpdated := 1 },
         { serverName := "s", toolName := "t", outputSchema := some "X",
           originalOutputSchema := true, lastUpdated := 1 }]
        "s" [{ name := "t" }] 9).1 "s" "old" = none ∧
    ({ serverName := "z", toolName := "k", outputSchema := none,
       originalOutputSchema := false, lastUpdated := 1 } : StoredTool) ∈
      (ServerRegistryService.syncToolsToDatabase
        [{ serverName := "s", toolName := "old", outputSchema := none,
           originalOutputSchema := false, lastUpdated := 1 },
         { serverName := "z", toolName := "k", outputSchema := none,
           originalOutputSchema := false, lastUpdated := 1 },
         { serverName := "s", toolName := "t", outputSchema := some "X",
           originalOutputSchema := true, lastUpdated := 1 }]
        "s" [{ name := "t" }] 9).1 ∧
    (ToolDatabase.getTool
      (ServerRegistryService.syncToolsToDatabase
        [{ serverName := "s", toolName := "old", outputSchema := none,
           originalOutputSchema := false, lastUpdated := 1 },
         { serverName := "z", toolName := "k", outputSchema := none,
           originalOutputSchema := false, lastUpdated := 1 },
         { serverName := "s", toolName := "t", outputSchema := some "X",
           originalOutputSchema := true, lastUpdated := 1 }]
        "s" [{ name := "t" }] 9).1 "s" "t").isSome = true := by
  have h := orphan_cleanup_spec
    [("a", { listToolsResult := .ok [{ name := "t" }] })] []
    [{ serverName := "gone", toolName := "x", outputSchema := none,
       originalOutputSchema := false, lastUpdated := 1 }] 9 "gone"
    [{ serverName := "s", toolName := "old", outputSchema := none,
       originalOutputSchema := false, lastUpdated := 1 },
     { serverName := "z", toolName := "k", outputSchema := none,
       originalOutputSchema := false, lastUpdated := 1 },
     { serverName := "s", toolName := "t", outputSchema := some "X",
       originalOutputSchema := true, lastUpdated := 1 }]
    "s" [{ name := "t" }]
  refine ⟨h.1 (by decide), ?_, ?_, h.2.2.2 "t" (by decide) (by decide)⟩
  · exact h.2.1
      { serverName := "s", toolName := "old", outputSchema := none,
        originalOutputSchema := false, lastUpdated := 1 }
      (by decide) (by decide) (by decide)
  · exact h.2.2.1
      { serverName := "z", toolName := "k", outputSchema := none,
        originalOutputSchema := false, lastUpdated := 1 }
      (by decide) (by decide)

/-- C7 is refuted at a concrete input: `indexTools` performs no clearing.  A
store holding a stale entry "a/t" from an earlier pass, re-indexed over a
server map in which server "a" advertises no tools, returns with the stale
entry still present in both the id-to-descriptor map and the vector index —
the claim requires both to end up empty. -/
theorem indexTools_counterexample :
    VectorStoreImpl.indexTools (fun _ => (0 : Nat))
      { ready := true,
        toolsMap := [("a/t", { serverName := "a", toolName := "t",
                               description := "t",
                               tool := { name := "t", title := some "t" } })],
        index := [{ id := "a/t", vector := 0, metadataServerName := "a",
                    metadataToolName := "t", metadataDescription := "t" }] }
      [("a", { name := "a", client := {}, tools := [] })] =
      .ok { ready := true,
            toolsMap := [("a/t", { serverName := "a", toolName := "t",
                                   description := "t",
                                   tool := { name := "t", title := some "t" } })],
            index := [{ id := "a/t", vector := 0, metadataServerName := "a",
                        metadataToolName := "t", metadataDescription := "t" }] } := by
  rfl

/-- C7 (amended): `indexTools` fails when the store is uninitialized and
otherwise upserts — without any prior clearing — one entry per (server, tool)
pair of the given map into both the vector index and the id-to-descriptor
map, with id "serverName/toolName", the embedding of the tool's description
(or its name when the description is absent or empty), and the (serverName,
toolName, description) metadata; entries of earlier indexing passes whose ids
are not re-indexed survive (the index is cleared only by `initialize`). -/
theorem indexTools_amended {E : Type _} (embed : String → E) (st : VSState E)
    (servers : ServersInfo) (hready : st.ready = true)
    (hids : (servers.flatMap
      (fun p => p.2.tools.map (fun t => p.1 ++ "/" ++ t.name))).Nodup) :
    ∃ st', VectorStoreImpl.indexTools embed st servers = .ok st' ∧
      (∀ p ∈ servers, ∀ t ∈ p.2.tools,
        st'.toolsMap.lookup (p.1 ++ "/" ++ t.name) =
          some { serverName := p.1, toolName := t.name,
                 description := VectorStoreImpl.embedText t, tool := t } ∧
        st'.index.find? (·.id == p.1 ++ "/" ++ t.name) =
          some { id := p.1 ++ "/" ++ t.name,
                 vector := embed (VectorStoreImpl.embedText t),
                 metadataServerName := p.1, metadataToolName := t.name,
                 metadataDescription := VectorStoreImpl.embedText t }) ∧
      (∀ id', (st.toolsMap.lookup id').isSome = true →
        (st'.toolsMap.lookup id').isSome = true) := by
  refine ⟨servers.foldl
    (fun s p => p.2.tools.foldl (VectorStoreImpl.indexOneTool embed p.1) s) st,
    ?_, ?_, ?_⟩
  · unfold VectorStoreImpl.indexTools
    rw [hready]
    rfl
  · intro p hp t ht
    exact VectorStoreImpl.foldServers_sets embed servers st hids p hp t ht
  · intro id' h
    exact VectorStoreImpl.foldServers_isSome embed servers st id' h

/-- Witness for the amended C7 at a one-server, one-tool map. -/
theorem indexTools_amended_witness :
    ∃ st', VectorStoreImpl.indexTools (fun _ => (0 : Nat)) { ready := true }
      [("a", { name := "a", client := {}, tools := [{ name := "t", title := some "t", description := some "d" }] })] = .ok st' ∧
      st'.toolsMap.lookup "a/t" =
        some { serverName := "a", toolName := "t", description := "d",
               tool := { name := "t", title := some "t", description := some "d" } } := by
  obtain ⟨st', h1, h2, _⟩ := indexTools_amended (fun _ => (0 : Nat))
    { ready := true }
    [("a", { name := "a", client := {}, tools := [{ name := "t", title := some "t", description := some "d" }] })]
    rfl (by decide)
  refine ⟨st', h1, ?_⟩
  have hh := (h2 ("a", { name := "a", client := {}, tools := [{ name := "t", title := some "t", description := some "d" }] })
    (by decide) { name := "t", title := some "t", description := some "d" }
    (by decide)).1
  simpa [VectorStoreImpl.embedText, jsStrOr] using hh

/-- C3: re-running `registerAllServers` while every connected server
advertises the same tool set leaves the metadata store with exactly the same
rows — same (serverName, toolName) keys, same outputSchema and same original
flag — changing at most the `lastUpdated` timestamps (the two databases have
equal `stripTime` images); and no two rows ever share a (serverName, toolName)
pair: both runs leave the store with unique keys, and every row-writing
database primitive (`saveTool`, `updateTool`, `deleteTool`,
`deleteServerTools`) preserves key uniqueness, so every intermediate state of
the store keeps it.  Hypotheses: connection names are unique (the connection
manager's map keys), each advertised tool list has unique names (MCP tool
names are unique per server), serialized output schemas are non-empty strings
(`JSON.stringify` of an object), and the initial store has unique keys (the
table's UNIQUE constraint). -/
theorem reregistration_idempotent_spec (conns : Connections) (db0 : DB)
    (t1 t2 : Nat) (hconn : (conns.map Prod.fst).Nodup)
    (htools : ∀ p ∈ conns, ∀ ts, (p.2 : Client).listToolsResult = .ok ts →
      (ts.map (·.name)).Nodup ∧ ∀ t ∈ ts, t.outputSchema ≠ some "")
    (hdb : ToolDatabase.UniqueKeys db0) :
    (((ServerRegistryService.registerAllServers conns []
        (ServerRegistryService.registerAllServers conns [] db0 t1).2 t2).2).map
        ServerRegistryService.stripTime =
      ((ServerRegistryService.registerAllServers conns [] db0 t1).2).map
        ServerRegistryService.stripTime) ∧
    ToolDatabase.UniqueKeys
      ((ServerRegistryService.registerAllServers conns [] db0 t1).2) ∧
    ToolDatabase.UniqueKeys
      ((ServerRegistryService.registerAllServers conns []
        (ServerRegistryService.registerAllServers conns [] db0 t1).2 t2).2) ∧
    (∀ (d : DB) (row : StoredTool), ToolDatabase.UniqueKeys d →
      ToolDatabase.UniqueKeys (ToolDatabase.saveTool d row)) ∧
    (∀ (d : DB) (sn tn S : String) (b : Bool) (n : Nat),
      ToolDatabase.UniqueKeys d →
      ToolDatabase.UniqueKeys (ToolDatabase.updateTool d sn tn S b n)) ∧
    (∀ (d : DB) (sn tn : String), ToolDatabase.UniqueKeys d →
      ToolDatabase.UniqueKeys (ToolDatabase.deleteTool d sn tn)) ∧
    (∀ (d : DB) (sn : String), ToolDatabase.UniqueKeys d →
      ToolDatabase.UniqueKeys (ToolDatabase.deleteServerTools d sn)) := by
  refine ⟨ServerRegistryService.registerAllServers_idem_aux conns db0 t1 t2
      hconn htools,
    ServerRegistryService.uniqueKeys_registerAllServers conns [] db0 t1 hdb,
    ServerRegistryService.uniqueKeys_registerAllServers conns [] _ t2
      (ServerRegistryService.uniqueKeys_registerAllServers conns [] db0 t1 hdb),
    fun d row h => ToolDatabase.uniqueKeys_saveTool d row h,
    fun d sn tn S b n h => ToolDatabase.uniqueKeys_updateTool d sn tn S b n h,
    fun d sn tn h => ToolDatabase.uniqueKeys_filter d _ h,
    fun d sn h => ToolDatabase.uniqueKeys_filter d _ h⟩

/-- Witness for C3: two connections — server "a" advertising one tool with a
schema, server "b" whose listing fails — over a store holding a stale row.
The second run's database equals the first's up to timestamps, and the first
run's database has unique keys. -/
theorem reregistration_idempotent_spec_witness :
    (((ServerRegistryService.registerAllServers
        [("a", { listToolsResult := .ok [{ name := "t", outputSchema := some "S" }] }),
         ("b", { listToolsResult := .error "down" })] []
        (ServerRegistryService.registerAllServers
          [("a", { listToolsResult := .ok [{ name := "t", outputSchema := some "S" }] }),
           ("b", { listToolsResult := .error "down" })] []
          [{ serverName := "gone", toolName := "x", lastUpdated := 1 }] 1).2 2).2).map
        ServerRegistryService.stripTime =
      ((ServerRegistryService.registerAllServers
        [("a", { listToolsResult := .ok [{ name := "t", outputSchema := some "S" }] }),
         ("b", { listToolsResult := .error "down" })] []
        [{ serverName := "gone", toolName := "x", lastUpdated := 1 }] 1).2).map
        ServerRegistryService.stripTime) ∧
    ToolDatabase.UniqueKeys
      ((ServerRegistryService.registerAllServers
        [("a", { listToolsResult := .ok [{ name := "t", outputSchema := some "S" }] }),
         ("b", { listToolsResult := .error "down" })] []
        [{ serverName := "gone", toolName := "x", lastUpdated := 1 }] 1).2) := by
  have h := reregistration_idempotent_spec
    [("a", { listToolsResult := .ok [{ name := "t", outputSchema := some "S" }] }),
     ("b", { listToolsResult := .error "down" })]
    [{ serverName := "gone", toolName := "x", lastUpdated := 1 }] 1 2
    (by decide)
    (by
      intro p hp ts hts
      rcases List.mem_cons.mp hp with rfl | hp
      · have hts2 : Except.ok (ε := String)
            [({ name := "t", outputSchema := some "S" } : Tool)] = .ok ts := hts
        obtain rfl := Except.ok.inj hts2
        exact ⟨by decide, by decide⟩
      · rcases List.mem_cons.mp hp with rfl | hp
        · exact Except.noConfusion (show Except.error (α := List Tool)
            "down" = .ok ts from hts)
        · exact absurd hp (by simp))
    (by decide)
  exact ⟨h.1, h.2.1⟩

end McpOfMcps
